import Mathlib

/-!
# Verification of the API Tester MCP server

A shallow embedding, in Lean 4, of the core of the `first-mcp-server`
repository: the HTTP call engine (`httpCall` in `helpers.ts`, with its
query-string construction, header composition, retry loop and result
shapes), the small utilities (`redactHeaders`, `asJsonMaybe`), the
`http_request` tool handler (query normalization, body preview,
structured content), and the session transport multiplexer of the
HTTP deployment (`POST /mcp` routing, `handleSessionRequest`,
`transport.onclose`).

Modelling conventions:
* JavaScript strings that can carry lone UTF-16 surrogates (query keys
  and values reaching `encodeURIComponent`) are modelled as lists of
  UTF-16 code units (`List Nat`); everywhere else `String` is used
  (Lean strings are well-formed Unicode, which matches the places where
  surrogate pairing cannot affect control flow).
* JavaScript numbers are held in exact canonical decimal form
  (`JSNumber`, `mant × 10^exp10`).  `Number(string)` (the query
  normalizer's coercion) models full IEEE binary64 rounding of the
  literal's value — overflow to `Infinity`, underflow to zero, round to
  nearest, ties to even — every finite double being an exact decimal.
  `JSON.parse` keeps the literal's exact value (its binary64 rounding is
  not modelled; no claim under verification depends on it), and the
  decimal rendering (`jsNumToString`) is exact.
* Wall-clock time is not modelled: the `latencyMs` field is fixed at 0
  and backoff delays are ignored; the outcome of each network attempt
  is supplied by an oracle `Nat → AttemptOutcome` indexed by the
  attempt number.  A thrown value caught by the retry loop is
  abstracted to its string rendering (`String(err.message)`).
* Fallible JavaScript code (code that can throw outside any
  `try`/`catch`) is modelled with `Except`; code wrapped in
  `try { ... } catch { ... }` is folded into total functions.
-/

/-! ## Basic string utilities (ASCII case folding, substring test) -/

/-- ASCII lower-casing of a character, the effective behaviour of
`String.prototype.toLowerCase` on the ASCII header names that occur here. -/
def asciiLowerChar (c : Char) : Char :=
  if 'A' ≤ c ∧ c ≤ 'Z' then Char.ofNat (c.toNat + 32) else c

/-- ASCII lower-casing of a string (models `k.toLowerCase()` on header keys). -/
def asciiLower (s : String) : String :=
  ⟨s.data.map asciiLowerChar⟩

/-- Does the pattern occur at the head of the list? -/
def matchesAt : List Char → List Char → Bool
  | [], _ => true
  | _ :: _, [] => false
  | p :: ps, c :: cs => p = c && matchesAt ps cs

/-- Does the pattern occur anywhere in the list? -/
def containsAt (pat : List Char) : List Char → Bool
  | [] => matchesAt pat []
  | c :: cs => matchesAt pat (c :: cs) || containsAt pat cs

/-- Substring test (models JavaScript `String.prototype.includes`). -/
def strIncludes (s pat : String) : Bool :=
  containsAt pat.data s.data

/-! ## `redactHeaders` (helpers.ts lines 12–21) -/

/-- The fixed redaction marker used by `redactHeaders`. -/
def redactionMarker : String := "🔒[redacted]"

/-- Is this header key sensitive?  Mirrors
`lower.includes("authorization") || lower.includes("api-key")`. -/
def sensitiveKey (k : String) : Bool :=
  strIncludes (asciiLower k) "authorization" || strIncludes (asciiLower k) "api-key"

/-- `redactHeaders` from helpers.ts: rebuilds the header record, replacing the
value of every key whose lower-cased form contains `authorization` or
`api-key` by the redaction marker.  A JavaScript object is modelled as an
association list in insertion order. -/
def redactHeaders (headers : List (String × String)) : List (String × String) :=
  headers.map (fun kv => (kv.1, if sensitiveKey kv.1 then redactionMarker else kv.2))

example : redactHeaders [("Authorization", "Bearer x"), ("x-api-key", "k"), ("accept", "a")]
    = [("Authorization", redactionMarker), ("x-api-key", redactionMarker), ("accept", "a")] := by
  decide

/-! ## JavaScript object update (assignment / spread semantics)

`{...a, ...b}` and `obj[k] = v` update an existing key in place (keeping its
insertion position) and append a fresh key at the end.  Objects are modelled
as association lists in insertion order. -/

/-- JS object key assignment: update in place if the key exists, else append. -/
def objInsert (m : List (String × α)) (k : String) (v : α) : List (String × α) :=
  if m.any (fun kv => kv.1 = k) then
    m.map (fun kv => if kv.1 = k then (k, v) else kv)
  else m ++ [(k, v)]

/-- JS object property lookup (keys are unique in a JS object, so the first
match is the only one). -/
def objLookup : List (String × α) → String → Option α
  | [], _ => none
  | kv :: rest, k => if kv.1 = k then some kv.2 else objLookup rest k

theorem objLookup_map_update (m : List (String × α)) (k k' : String) (v : α) :
    objLookup (m.map (fun kv => if kv.1 = k then (k, v) else kv)) k'
      = if k' = k then (if m.any (fun kv => kv.1 = k) then some v else none)
        else objLookup m k' := by
  induction m with
  | nil => by_cases h : k' = k <;> simp [objLookup, h]
  | cons kv rest ih =>
    by_cases hk : kv.1 = k
    · by_cases h : k' = k
      · subst h; simp [objLookup, hk]
      · have hkv : ¬ kv.1 = k' := by rw [hk]; exact fun hh => h hh.symm
        have h3 : ¬ k = k' := fun hh => h hh.symm
        simp [objLookup, hk, h, h3, hkv, ih]
    · by_cases h : k' = k
      · subst h
        simp only [List.map_cons, if_neg hk, objLookup, List.any_cons]
        rw [ih]
        rcases Bool.eq_false_or_eq_true (rest.any fun kv => decide (kv.1 = k')) with hany | hany <;>
          simp only [hany] <;> simp [hk]
      · by_cases h2 : kv.1 = k'
        · simp [objLookup, hk, h2, h, ih]
        · simp [objLookup, hk, h2, h, ih]

theorem objLookup_append_single (m : List (String × α)) (k k' : String) (v : α) :
    objLookup (m ++ [(k, v)]) k'
      = ((objLookup m k').orElse (fun _ => if k' = k then some v else none)) := by
  induction m with
  | nil =>
    by_cases h : k' = k
    · subst h; simp [objLookup, Option.orElse]
    · have h3 : ¬ k = k' := fun hh => h hh.symm
      simp [objLookup, Option.orElse, h3, h]
  | cons kv rest ih =>
    by_cases h2 : kv.1 = k'
    · simp [objLookup, h2, Option.orElse]
    · simp [objLookup, h2, ih]

theorem objLookup_none_of_not_any (m : List (String × α)) (k : String)
    (h : m.any (fun kv => kv.1 = k) = false) : objLookup m k = none := by
  induction m with
  | nil => simp [objLookup]
  | cons kv rest ih =>
    simp only [List.any_cons, Bool.or_eq_false_iff, decide_eq_false_iff_not] at h
    simp [objLookup, h.1, ih (by simpa using h.2)]

theorem objLookup_objInsert (m : List (String × α)) (k k' : String) (v : α) :
    objLookup (objInsert m k v) k' = if k' = k then some v else objLookup m k' := by
  by_cases hmem : m.any (fun kv => kv.1 = k)
  · rw [objInsert, if_pos hmem, objLookup_map_update]
    by_cases h : k' = k <;> simp [h, hmem]
  · rw [objInsert, if_neg hmem, objLookup_append_single]
    by_cases h : k' = k
    · subst h
      have hfalse : m.any (fun kv => kv.1 = k') = false := by
        cases hx : m.any (fun kv => kv.1 = k') with
        | false => rfl
        | true => exact absurd hx hmem
      rw [objLookup_none_of_not_any m k' hfalse]
      simp [Option.orElse]
    · simp only [if_neg h]
      cases objLookup m k' <;> simp [Option.orElse]

/-! ## JavaScript / JSON values

`JSValue` models the values `JSON.parse` can produce.  Numbers are modelled
as `mant × 10^exp10` in canonical form (`mant` not divisible by 10 unless
zero), a representation exact for every JSON decimal literal and for every
finite binary64 value.  `JSON.parse` keeps the literal's exact value (its
binary64 rounding is not modelled; no claim under verification depends on
it). -/

/-- A JavaScript (finite) number in canonical decimal-exponent form. -/
structure JSNumber where
  mant : Int
  exp10 : Int
deriving DecidableEq

/-- Strip factors of 10 from the mantissa (fuel-bounded, 800 is far beyond
any digit count reachable here). -/
def canonAux : Nat → Int → Int → JSNumber
  | 0, m, e => ⟨m, e⟩
  | fuel+1, m, e => if m % 10 = 0 then canonAux fuel (m / 10) (e + 1) else ⟨m, e⟩

/-- Canonical form of `m × 10^e`. -/
def JSNumber.canon (m e : Int) : JSNumber :=
  if m = 0 then ⟨0, 0⟩ else canonAux 800 m e

/-- JSON-representable JavaScript values. -/
inductive JSValue where
  | null
  | bool (b : Bool)
  | num (n : JSNumber)
  | str (s : String)
  | arr (elems : List JSValue)
  | obj (members : List (String × JSValue))

/-- JavaScript truthiness of a `JSValue` (`NaN` is not representable here;
`JSON.parse` cannot produce it). -/
def jsTruthy : JSValue → Bool
  | .null => false
  | .bool b => b
  | .num n => n.mant ≠ 0
  | .str s => s ≠ ""
  | .arr _ => true
  | .obj _ => true

/-! ### Decimal rendering of numbers

`jsNumToString` renders the exact decimal value (JavaScript's switch to
exponent notation beyond `1e21` / below `1e-6` is not modelled; no claim
depends on it). -/

/-- `n` in decimal, left-padded with zeros to at least `k` digits. -/
def natDigitsPad (n k : Nat) : String :=
  let d := toString n
  String.mk (List.replicate (k - d.length) '0') ++ d

/-- Decimal rendering of a finite JavaScript number (`String(n)`). -/
def jsNumToString (n : JSNumber) : String :=
  if n.mant = 0 then "0"
  else
    let sign := if n.mant < 0 then "-" else ""
    let a := n.mant.natAbs
    match n.exp10 with
    | .ofNat e => sign ++ toString a ++ String.mk (List.replicate e '0')
    | .negSucc k0 =>
      let k := k0 + 1
      sign ++ toString (a / 10^k) ++ "." ++ natDigitsPad (a % 10^k) k

example : jsNumToString (JSNumber.canon 5 0) = "5" := rfl
example : jsNumToString (JSNumber.canon 1 10) = "10000000000" := rfl
example : jsNumToString (JSNumber.canon (-15) (-1)) = "-1.5" := rfl
example : jsNumToString (JSNumber.canon 5 (-4)) = "0.0005" := rfl

/-! ### `JSON.stringify` -/

/-- Lower-case hex digit. -/
def hexDigitChar (n : Nat) : Char :=
  if n < 10 then Char.ofNat (48 + n) else Char.ofNat (87 + n)

/-- Escape one character as inside a JSON string literal. -/
def escapeJsonChar (c : Char) : String :=
  if c = '"' then "\\\""
  else if c = '\\' then "\\\\"
  else if c = '\n' then "\\n"
  else if c = '\r' then "\\r"
  else if c = '\t' then "\\t"
  else if c = '\x08' then "\\b"
  else if c = '\x0c' then "\\f"
  else if c.toNat < 32 then
    "\\u00" ++ String.singleton (hexDigitChar (c.toNat / 16))
      ++ String.singleton (hexDigitChar (c.toNat % 16))
  else String.singleton c

/-- A JSON string literal for `s`. -/
def quoteJsonString (s : String) : String :=
  "\"" ++ String.join (s.data.map escapeJsonChar) ++ "\""

mutual

/-- Compact `JSON.stringify(v)`. -/
def stringifyVal : JSValue → String
  | .null => "null"
  | .bool true => "true"
  | .bool false => "false"
  | .num n => jsNumToString n
  | .str s => quoteJsonString s
  | .arr xs => "[" ++ stringifyElems xs ++ "]"
  | .obj ms => "\x7b" ++ stringifyMembers ms ++ "\x7d"

def stringifyElems : List JSValue → String
  | [] => ""
  | [x] => stringifyVal x
  | x :: y :: rest => stringifyVal x ++ "," ++ stringifyElems (y :: rest)

def stringifyMembers : List (String × JSValue) → String
  | [] => ""
  | [kv] => quoteJsonString kv.1 ++ ":" ++ stringifyVal kv.2
  | kv :: kv2 :: rest =>
    quoteJsonString kv.1 ++ ":" ++ stringifyVal kv.2 ++ "," ++ stringifyMembers (kv2 :: rest)

end

/-- `n` spaces. -/
def padSp (n : Nat) : String := String.mk (List.replicate n ' ')

mutual

/-- Pretty `JSON.stringify(v, null, 2)`; `ind` is the indentation of the
line the value starts on. -/
def stringify2Val (ind : Nat) : JSValue → String
  | .arr [] => "[]"
  | .obj [] => "\x7b\x7d"
  | .arr (x :: xs) => "[\n" ++ stringify2Elems (ind + 2) (x :: xs) ++ "\n" ++ padSp ind ++ "]"
  | .obj (kv :: ms) =>
    "\x7b\n" ++ stringify2Members (ind + 2) (kv :: ms) ++ "\n" ++ padSp ind ++ "\x7d"
  | v => stringifyVal v

def stringify2Elems (ind : Nat) : List JSValue → String
  | [] => ""
  | [x] => padSp ind ++ stringify2Val ind x
  | x :: y :: rest => padSp ind ++ stringify2Val ind x ++ ",\n" ++ stringify2Elems ind (y :: rest)

def stringify2Members (ind : Nat) : List (String × JSValue) → String
  | [] => ""
  | [kv] => padSp ind ++ quoteJsonString kv.1 ++ ": " ++ stringify2Val ind kv.2
  | kv :: kv2 :: rest =>
    padSp ind ++ quoteJsonString kv.1 ++ ": " ++ stringify2Val ind kv.2 ++ ",\n"
      ++ stringify2Members ind (kv2 :: rest)

end

example :
    stringify2Val 0 (.obj [("a", .arr [.num (JSNumber.canon 1 0)])])
      = "\x7b\n  \"a\": [\n    1\n  ]\n\x7d" := rfl

/-! ### `JSON.parse`

A fuel-bounded recursive-descent parser over the character list, following
the JSON grammar that `JSON.parse` accepts (insignificant whitespace
around tokens, no trailing input).  Escaped lone surrogates, which a Lean
`String` cannot hold, are mapped to U+FFFD; no claim depends on them. -/

/-- JSON insignificant whitespace. -/
def jsonWs (c : Char) : Bool := c = ' ' || c = '\t' || c = '\n' || c = '\r'

def skipJsonWs : List Char → List Char
  | [] => []
  | c :: cs => if jsonWs c then skipJsonWs cs else c :: cs

def isDigitCh (c : Char) : Bool := '0' ≤ c && c ≤ '9'

/-- Split a maximal run of decimal digits off the front. -/
def takeDigits : List Char → List Char × List Char
  | [] => ([], [])
  | c :: cs =>
    if isDigitCh c then
      let (d, r) := takeDigits cs
      (c :: d, r)
    else ([], c :: cs)

def digitsToNat (l : List Char) : Nat :=
  l.foldl (fun acc c => acc * 10 + (c.toNat - 48)) 0

/-- Value of one hex digit, if it is one. -/
def hexVal (c : Char) : Option Nat :=
  if '0' ≤ c && c ≤ '9' then some (c.toNat - 48)
  else if 'a' ≤ c && c ≤ 'f' then some (c.toNat - 87)
  else if 'A' ≤ c && c ≤ 'F' then some (c.toNat - 55)
  else none

/-- Four hex digits. -/
def parseHex4 : List Char → Option (Nat × List Char)
  | a :: b :: c :: d :: rest =>
    match hexVal a, hexVal b, hexVal c, hexVal d with
    | some x, some y, some z, some w => some (x * 4096 + y * 256 + z * 16 + w, rest)
    | _, _, _, _ => none
  | _ => none

/-- Exponent part (after `e`/`E`): signed digit run. -/
def parseExpPart (cs : List Char) : Option (Int × List Char) :=
  let (sgn, cs1) : Int × List Char :=
    match cs with
    | '+' :: r => (1, r)
    | '-' :: r => (-1, r)
    | _ => (1, cs)
  match takeDigits cs1 with
  | ([], _) => none
  | (ds, r) => some (sgn * (digitsToNat ds : Int), r)

/-- Fraction and exponent after the integer digits; builds the canonical
number `sign * (ipDigits ++ fracDigits) × 10^(exp - #fracDigits)`. -/
def parseNumTail (neg : Bool) (ipDigits : List Char) (cs : List Char) :
    Option (JSNumber × List Char) :=
  match cs with
    | '.' :: r =>
      match takeDigits r with
      | ([], _) => none
      | (ds, r2) => parseNumExp neg ipDigits ds r2
    | _ => parseNumExp neg ipDigits [] cs
where
  parseNumExp (neg : Bool) (ipDigits fdigits : List Char) (cs : List Char) :
      Option (JSNumber × List Char) :=
    let mag : Nat := digitsToNat (ipDigits ++ fdigits)
    let m : Int := if neg then -(mag : Int) else (mag : Int)
    match cs with
    | 'e' :: r =>
      match parseExpPart r with
      | none => none
      | some (e, r2) => some (JSNumber.canon m (e - fdigits.length), r2)
    | 'E' :: r =>
      match parseExpPart r with
      | none => none
      | some (e, r2) => some (JSNumber.canon m (e - fdigits.length), r2)
    | _ => some (JSNumber.canon m (-(fdigits.length : Int)), cs)

/-- JSON number: `-? (0 | [1-9][0-9]*) frac? exp?`. -/
def parseJsonNumber (cs : List Char) : Option (JSNumber × List Char) :=
  let (neg, cs1) : Bool × List Char :=
    match cs with
    | '-' :: r => (true, r)
    | _ => (false, cs)
  match cs1 with
  | c :: rest =>
    if c = '0' then parseNumTail neg ['0'] rest
    else if isDigitCh c then
      let (ds, r) := takeDigits rest
      parseNumTail neg (c :: ds) r
    else none
  | [] => none

/-- Body of a JSON string literal (opening quote already consumed);
`acc` holds the characters read so far, reversed. -/
def pStringAux : Nat → List Char → List Char → Option (String × List Char)
  | 0, _, _ => none
  | _, [], _ => none
  | fuel+1, c :: rest, acc =>
    if c = '"' then some (String.mk acc.reverse, rest)
    else if c = '\\' then
      match rest with
      | [] => none
      | e :: r2 =>
        if e = '"' then pStringAux fuel r2 ('"' :: acc)
        else if e = '\\' then pStringAux fuel r2 ('\\' :: acc)
        else if e = '/' then pStringAux fuel r2 ('/' :: acc)
        else if e = 'b' then pStringAux fuel r2 ('\x08' :: acc)
        else if e = 'f' then pStringAux fuel r2 ('\x0c' :: acc)
        else if e = 'n' then pStringAux fuel r2 ('\n' :: acc)
        else if e = 'r' then pStringAux fuel r2 ('\r' :: acc)
        else if e = 't' then pStringAux fuel r2 ('\t' :: acc)
        else if e = 'u' then
          match parseHex4 r2 with
          | none => none
          | some (u1, r3) =>
            if 0xD800 ≤ u1 ∧ u1 ≤ 0xDBFF then
              match r3 with
              | '\\' :: 'u' :: r4 =>
                match parseHex4 r4 with
                | some (u2, r5) =>
                  if 0xDC00 ≤ u2 ∧ u2 ≤ 0xDFFF then
                    pStringAux fuel r5
                      (Char.ofNat ((u1 - 0xD800) * 0x400 + (u2 - 0xDC00) + 0x10000) :: acc)
                  else pStringAux fuel r3 ('�' :: acc)
                | none => pStringAux fuel r3 ('�' :: acc)
              | _ => pStringAux fuel r3 ('�' :: acc)
            else if 0xDC00 ≤ u1 ∧ u1 ≤ 0xDFFF then pStringAux fuel r3 ('�' :: acc)
            else pStringAux fuel r3 (Char.ofNat u1 :: acc)
        else none
    else if c.toNat < 0x20 then none
    else pStringAux fuel rest (c :: acc)

mutual

/-- One JSON value (with leading whitespace). -/
def pValue : Nat → List Char → Option (JSValue × List Char)
  | 0, _ => none
  | fuel+1, cs =>
    match skipJsonWs cs with
    | [] => none
    | c :: rest =>
      if c = '\x7b' then
        match skipJsonWs rest with
        | '\x7d' :: r => some (.obj [], r)
        | r => pMembers fuel r []
      else if c = '[' then
        match skipJsonWs rest with
        | ']' :: r => some (.arr [], r)
        | r => pElems fuel r []
      else if c = '"' then
        match pStringAux (fuel+1) rest [] with
        | some (s, r) => some (.str s, r)
        | none => none
      else if c = 't' then
        if matchesAt ['r', 'u', 'e'] rest then some (.bool true, rest.drop 3) else none
      else if c = 'f' then
        if matchesAt ['a', 'l', 's', 'e'] rest then some (.bool false, rest.drop 4) else none
      else if c = 'n' then
        if matchesAt ['u', 'l', 'l'] rest then some (.null, rest.drop 3) else none
      else
        match parseJsonNumber (c :: rest) with
        | some (n, r) => some (.num n, r)
        | none => none

/-- Array elements after `[` (at least one). -/
def pElems : Nat → List Char → List JSValue → Option (JSValue × List Char)
  | 0, _, _ => none
  | fuel+1, cs, acc =>
    match pValue fuel cs with
    | none => none
    | some (v, r) =>
      match skipJsonWs r with
      | ',' :: r2 => pElems fuel r2 (acc ++ [v])
      | ']' :: r2 => some (.arr (acc ++ [v]), r2)
      | _ => none

/-- Object members after `\x7b` (at least one). -/
def pMembers : Nat → List Char → List (String × JSValue) → Option (JSValue × List Char)
  | 0, _, _ => none
  | fuel+1, cs, acc =>
    match skipJsonWs cs with
    | '"' :: r =>
      match pStringAux (fuel+1) r [] with
      | none => none
      | some (k, r2) =>
        match skipJsonWs r2 with
        | ':' :: r3 =>
          match pValue fuel r3 with
          | none => none
          | some (v, r4) =>
            match skipJsonWs r4 with
            | ',' :: r5 => pMembers fuel r5 (acc ++ [(k, v)])
            | '\x7d' :: r5 => some (.obj (acc ++ [(k, v)]), r5)
            | _ => none
        | _ => none
    | _ => none

end

/-- `JSON.parse(s)`, as an `Option` (`none` models a thrown `SyntaxError`). -/
def jsonParse (s : String) : Option JSValue :=
  match pValue (2 * s.data.length + 8) s.data with
  | some (v, rest) => if skipJsonWs rest = [] then some v else none
  | none => none

/-- `asJsonMaybe` from helpers.ts: `try { return JSON.parse(text) } catch { return undefined }`. -/
def asJsonMaybe (text : String) : Option JSValue := jsonParse text

/-! ## UTF-16 strings and `encodeURIComponent`

JavaScript strings are sequences of UTF-16 code units and may contain lone
surrogates (reachable in practice through JSON escapes in the protocol
payload).  Query keys and values, which flow into `encodeURIComponent`,
are therefore modelled as `List Nat` of code units; `encodeURIComponent`
throws `URIError` on a lone surrogate (ECMAScript `Encode`), modelled with
`Except Unit`. -/

/-- UTF-16 code units of one Unicode scalar value. -/
def charToUnits (c : Char) : List Nat :=
  let v := c.toNat
  if v < 0x10000 then [v]
  else [0xD800 + (v - 0x10000) / 0x400, 0xDC00 + (v - 0x10000) % 0x400]

/-- UTF-16 code units of a Lean string (necessarily well-formed). -/
def strToUnits (s : String) : List Nat :=
  (s.data.map charToUnits).flatten

/-- No lone surrogates: every lead surrogate is followed by a trail
surrogate and no trail surrogate appears on its own. -/
def wellFormedUnits : List Nat → Bool
  | [] => true
  | [c] => decide (¬(0xD800 ≤ c ∧ c ≤ 0xDFFF))
  | c :: c2 :: rest =>
    if 0xDC00 ≤ c ∧ c ≤ 0xDFFF then false
    else if 0xD800 ≤ c ∧ c ≤ 0xDBFF then
      decide (0xDC00 ≤ c2 ∧ c2 ≤ 0xDFFF) && wellFormedUnits rest
    else wellFormedUnits (c2 :: rest)

/-- The `uriUnescaped` set of ECMAScript `encodeURIComponent`:
ASCII alphanumerics and `- _ . ! ~ * ' ( )`. -/
def isUriUnescaped (c : Nat) : Bool :=
  (65 ≤ c && c ≤ 90) || (97 ≤ c && c ≤ 122) || (48 ≤ c && c ≤ 57) ||
    c = 45 || c = 95 || c = 46 || c = 33 || c = 126 || c = 42 || c = 39 || c = 40 || c = 41

/-- `%XX` (upper-case hex) for one byte. -/
def percentByte (b : Nat) : String :=
  let hx := fun n => if n < 10 then Char.ofNat (48 + n) else Char.ofNat (55 + n)
  String.mk ['%', hx (b / 16), hx (b % 16)]

/-- Percent-encoded UTF-8 bytes of one code point. -/
def percentUtf8 (v : Nat) : String :=
  if v < 0x80 then percentByte v
  else if v < 0x800 then
    percentByte (0xC0 + v / 0x40) ++ percentByte (0x80 + v % 0x40)
  else if v < 0x10000 then
    percentByte (0xE0 + v / 0x1000) ++ percentByte (0x80 + v / 0x40 % 0x40)
      ++ percentByte (0x80 + v % 0x40)
  else
    percentByte (0xF0 + v / 0x40000) ++ percentByte (0x80 + v / 0x1000 % 0x40)
      ++ percentByte (0x80 + v / 0x40 % 0x40) ++ percentByte (0x80 + v % 0x40)

/-- ECMAScript `Encode` over the code units (the core of
`encodeURIComponent`); `Except.error ()` models a thrown `URIError`. -/
def encodeGo : List Nat → Except Unit String
  | [] => .ok ""
  | c :: rest =>
    if isUriUnescaped c then
      match encodeGo rest with
      | .ok t => .ok (String.singleton (Char.ofNat c) ++ t)
      | .error e => .error e
    else if 0xDC00 ≤ c ∧ c ≤ 0xDFFF then .error ()
    else if 0xD800 ≤ c ∧ c ≤ 0xDBFF then
      match rest with
      | [] => .error ()
      | c2 :: rest2 =>
        if 0xDC00 ≤ c2 ∧ c2 ≤ 0xDFFF then
          match encodeGo rest2 with
          | .ok t => .ok (percentUtf8 ((c - 0xD800) * 0x400 + (c2 - 0xDC00) + 0x10000) ++ t)
          | .error e => .error e
        else .error ()
    else
      match encodeGo rest with
      | .ok t => .ok (percentUtf8 c ++ t)
      | .error e => .error e

/-- `encodeURIComponent` on a JavaScript string given as UTF-16 code units. -/
def encodeURIComponent (s : List Nat) : Except Unit String := encodeGo s

example : encodeURIComponent (strToUnits "a b&c=é") = .ok "a%20b%26c%3D%C3%A9" := rfl
example : encodeURIComponent [0xD800] = .error () := rfl
example : encodeURIComponent (strToUnits "😀") = .ok "%F0%9F%98%80" := rfl

/-! ## The HTTP call engine (`httpCall`, helpers.ts lines 38–133) -/

/-- A query value: `string | number | boolean | null | undefined`.
Strings are UTF-16 code-unit lists, since they reach `encodeURIComponent`. -/
inductive QVal where
  | str (s : List Nat)
  | num (n : JSNumber)
  | bool (b : Bool)
  | null
  | undef
deriving DecidableEq

/-- Is the value dropped by `.filter(([, v]) => v !== undefined && v !== null)`? -/
def qvalIsNullish : QVal → Bool
  | .null => true
  | .undef => true
  | _ => false

/-- `String(v)` for a query value, as UTF-16 code units. -/
def qvalToUnits : QVal → List Nat
  | .str s => s
  | .num n => strToUnits (jsNumToString n)
  | .bool true => strToUnits "true"
  | .bool false => strToUnits "false"
  | .null => strToUnits "null"
  | .undef => strToUnits "undefined"

/-- `encodeURIComponent(k) + "=" + encodeURIComponent(String(v))`. -/
def encodePair (kv : List Nat × QVal) : Except Unit String :=
  match encodeURIComponent kv.1 with
  | .error e => .error e
  | .ok k =>
    match encodeURIComponent (qvalToUnits kv.2) with
    | .error e => .error e
    | .ok v => .ok (k ++ "=" ++ v)

def encodePairs : List (List Nat × QVal) → Except Unit (List String)
  | [] => .ok []
  | kv :: rest =>
    match encodePair kv with
    | .error e => .error e
    | .ok s =>
      match encodePairs rest with
      | .error e => .error e
      | .ok ss => .ok (s :: ss)

/-- The query-string construction of `httpCall` (lines 48–55): empty unless
the query object exists and has keys; `null`/`undefined` values are dropped
entirely; keys and stringified values are URL-encoded and joined with `&`,
prefixed by `?`. -/
def buildQS (query : Option (List (List Nat × QVal))) : Except Unit String :=
  match query with
  | none => .ok ""
  | some q =>
    if q.length = 0 then .ok ""
    else
      match encodePairs (q.filter (fun kv => !qvalIsNullish kv.2)) with
      | .error e => .error e
      | .ok parts => .ok ("?" ++ String.intercalate "&" parts)

/-- A request body: a JavaScript string, or any other (JSON-serializable)
value.  (`JSON.stringify` inputs that throw — `BigInt`, circular structures
— are outside `JSValue` and not modelled.) -/
inductive BodyVal where
  | str (s : String)
  | jsonVal (v : JSValue)

/-- Body serialization (lines 59–64): absent stays absent, strings pass
through unchanged, anything else is JSON-serialized. -/
def mkPayload : Option BodyVal → Option String
  | none => none
  | some (.str s) => some s
  | some (.jsonVal v) => some (stringifyVal v)

/-- JS truthiness of the payload (`payload ?` — the empty string is falsy). -/
def payloadTruthy : Option String → Bool
  | none => false
  | some s => s ≠ ""

/-- Header composition (lines 66–71): fixed user-agent, `content-type`
only for a truthy payload, `authorization` from a configured non-empty
token, then caller headers spread last (later keys overwrite earlier
ones, object-spread semantics). -/
def mkFinalHeaders (apiToken : String) (payload : Option String)
    (headers : List (String × String)) : List (String × String) :=
  let base := [("user-agent", "mcp-api-tester/1.0")]
  let base := if payloadTruthy payload then objInsert base "content-type" "application/json" else base
  let base := if apiToken ≠ "" then objInsert base "authorization" apiToken else base
  headers.foldl (fun acc kv => objInsert acc kv.1 kv.2) base

/-- A response as undici delivers it: status code, headers (possibly
multi-valued), body text. -/
structure HttpResponse where
  statusCode : Nat
  headers : List (String × List String)
  bodyText : String

/-- Outcome of one network attempt: a response, or a thrown error
(timeout abort, connection failure, …) abstracted to the string rendering
of its message. -/
inductive AttemptOutcome where
  | success (r : HttpResponse)
  | failure (errMsg : String)

def AttemptOutcome.isFailureB : AttemptOutcome → Bool
  | .success _ => false
  | .failure _ => true

/-- The result value `httpCall` resolves with.  `latencyMs` is wall-clock
time, not modelled (fixed 0). -/
structure CallResult where
  ok : Bool
  status : Nat
  latencyMs : Nat
  headers : List (String × String)
  text : String
  json : Option JSValue
  url : String
  method : String
  requestHeaders : List (String × String)
  error : Option String

/-- Response-header normalization (lines 94–97): arrays joined with `", "`. -/
def normRespHeaders (hs : List (String × List String)) : List (String × String) :=
  hs.map (fun kv =>
    (kv.1, match kv.2 with
           | [v] => v
           | vs => String.intercalate ", " vs))

/-- The retry loop (lines 76–117): run attempts `attempt`, `attempt+1`, …
while fuel lasts; stop at the first attempt whose network call completes.
Returns the response of the succeeding attempt (if any), the number of
attempts made, and the last caught error. -/
def loopGo (oracle : Nat → AttemptOutcome) :
    Nat → Nat → Option String → Option HttpResponse × Nat × Option String
  | _, 0, lastErr => (none, 0, lastErr)
  | attempt, fuel+1, lastErr =>
    match oracle attempt with
    | .success r => (some r, 1, lastErr)
    | .failure e =>
      let (res, n, le) := loopGo oracle (attempt + 1) fuel (some e)
      (res, n + 1, le)

/-- Engine configuration from the environment: `API_TOKEN` and
`API_MAX_RETRIES` (default 2).  `BASE_URL` is unused by the engine and
`API_TIMEOUT_MS` only bounds each attempt in wall-clock time, which the
oracle abstracts. -/
structure HttpConfig where
  apiToken : String
  maxRetries : Nat

/-- The options record taken by `httpCall`. -/
structure CallOpts where
  url : String
  method : String
  headers : List (String × String) := []
  query : Option (List (List Nat × QVal)) := none
  body : Option BodyVal := none
  timeoutMs : Option Nat := none

/-- `httpCall`, with the number of attempts made exposed for the retry
claims.  `Except.error ()` models an exception escaping `httpCall`
(everything inside the `try` is caught; the query-string construction is
outside it). -/
def httpCallFull (cfg : HttpConfig) (oracle : Nat → AttemptOutcome) (opts : CallOpts) :
    Except Unit (CallResult × Nat) :=
  match buildQS opts.query with
  | .error e => .error e
  | .ok qs =>
    let target := opts.url ++ qs
    let payload := mkPayload opts.body
    let finalHeaders := mkFinalHeaders cfg.apiToken payload opts.headers
    match loopGo oracle 0 (cfg.maxRetries + 1) none with
    | (some r, n, _) =>
      .ok ({ ok := 200 ≤ r.statusCode ∧ r.statusCode < 300,
             status := r.statusCode,
             latencyMs := 0,
             headers := normRespHeaders r.headers,
             text := r.bodyText,
             json := asJsonMaybe r.bodyText,
             url := target,
             method := opts.method,
             requestHeaders := redactHeaders finalHeaders,
             error := none }, n)
    | (none, n, lastErr) =>
      .ok ({ ok := false,
             status := 0,
             latencyMs := 0,
             headers := [],
             text := "",
             json := none,
             url := target,
             method := opts.method,
             requestHeaders := redactHeaders finalHeaders,
             error := some (match lastErr with
                            | some m => m
                            | none => "undefined") }, n)

/-- `httpCall` proper: the resolved value. -/
def httpCall (cfg : HttpConfig) (oracle : Nat → AttemptOutcome) (opts : CallOpts) :
    Except Unit CallResult :=
  match httpCallFull cfg oracle opts with
  | .ok (r, _) => .ok r
  | .error e => .error e

/-- Is an `Except` a success? -/
def exceptOk : Except Unit α → Bool
  | .ok _ => true
  | .error _ => false

theorem char_toNat_valid (c : Char) :
    c.toNat < 0xD800 ∨ (0xDFFF < c.toNat ∧ c.toNat < 0x110000) := by
  have h := c.valid
  simp only [UInt32.isValidChar, Nat.isValidChar] at h
  exact h

set_option maxHeartbeats 1000000 in
theorem encodeGo_ok : ∀ l, wellFormedUnits l = true → exceptOk (encodeGo l) = true
  | [], _ => rfl
  | [c], h => by
    simp only [wellFormedUnits, decide_eq_true_eq] at h
    by_cases hu : isUriUnescaped c
    · simp [encodeGo, hu, exceptOk]
    · have h1 : ¬(0xDC00 ≤ c ∧ c ≤ 0xDFFF) := fun hc => h ⟨by omega, hc.2⟩
      have h2 : ¬(0xD800 ≤ c ∧ c ≤ 0xDBFF) := fun hc => h ⟨hc.1, by omega⟩
      simp [encodeGo, hu, h1, h2, exceptOk]
  | c :: c2 :: rest, h => by
    by_cases hTrail : 0xDC00 ≤ c ∧ c ≤ 0xDFFF
    · rw [wellFormedUnits, if_pos hTrail] at h
      exact absurd h (by simp)
    · by_cases hLead : 0xD800 ≤ c ∧ c ≤ 0xDBFF
      · rw [wellFormedUnits, if_neg hTrail, if_pos hLead] at h
        simp only [Bool.and_eq_true, decide_eq_true_eq] at h
        have hu : ¬ isUriUnescaped c = true := by
          simp only [isUriUnescaped]
          simp only [Bool.or_eq_true, Bool.and_eq_true, decide_eq_true_eq]
          omega
        have ih := encodeGo_ok rest h.2
        rw [encodeGo, if_neg (by simpa using hu), if_neg hTrail, if_pos hLead,
          if_pos h.1]
        cases hres : encodeGo rest with
        | ok t => simp [exceptOk]
        | error e => rw [hres] at ih; simp [exceptOk] at ih
      · rw [wellFormedUnits, if_neg hTrail, if_neg hLead] at h
        have ih := encodeGo_ok (c2 :: rest) h
        by_cases hu : isUriUnescaped c
        · rw [encodeGo, if_pos hu]
          cases hres : encodeGo (c2 :: rest) with
          | ok t => simp [exceptOk]
          | error e => rw [hres] at ih; simp [exceptOk] at ih
        · rw [encodeGo, if_neg hu, if_neg hTrail, if_neg hLead]
          cases hres : encodeGo (c2 :: rest) with
          | ok t => simp [exceptOk]
          | error e => rw [hres] at ih; simp [exceptOk] at ih

theorem wf_charToUnits_append (c : Char) (rest : List Nat)
    (h : wellFormedUnits rest = true) :
    wellFormedUnits (charToUnits c ++ rest) = true := by
  rcases char_toNat_valid c with hlt | ⟨hgt, hlt2⟩
  · have h1 : c.toNat < 0x10000 := by omega
    rw [charToUnits]
    simp only [if_pos h1, List.singleton_append]
    cases rest with
    | nil => simp [wellFormedUnits]; omega
    | cons r rs =>
      rw [wellFormedUnits, if_neg (by omega), if_neg (by omega)]
      exact h
  · by_cases h1 : c.toNat < 0x10000
    · rw [charToUnits]
      simp only [if_pos h1, List.singleton_append]
      cases rest with
      | nil => simp [wellFormedUnits]; omega
      | cons r rs =>
        rw [wellFormedUnits, if_neg (by omega), if_neg (by omega)]
        exact h
    · rw [charToUnits]
      simp only [if_neg h1, List.cons_append]
      have hd : (c.toNat - 0x10000) / 0x400 < 0x400 := by omega
      have hm : (c.toNat - 0x10000) % 0x400 < 0x400 := by omega
      rw [wellFormedUnits, if_neg (by omega), if_pos (by omega)]
      rw [decide_eq_true (by omega : 0xDC00 ≤ 0xDC00 + (c.toNat - 0x10000) % 0x400
        ∧ 0xDC00 + (c.toNat - 0x10000) % 0x400 ≤ 0xDFFF)]
      simpa using h

theorem wf_strToUnits_aux (l : List Char) (rest : List Nat)
    (h : wellFormedUnits rest = true) :
    wellFormedUnits ((l.map charToUnits).flatten ++ rest) = true := by
  induction l generalizing rest with
  | nil => simpa using h
  | cons c cs ih =>
    simp only [List.map_cons, List.flatten_cons, List.append_assoc]
    exact wf_charToUnits_append c _ (ih rest h)

/-- Lean strings are well-formed UTF-16: they cannot hold lone surrogates. -/
theorem wf_strToUnits (s : String) : wellFormedUnits (strToUnits s) = true := by
  have := wf_strToUnits_aux s.data [] rfl
  simpa [strToUnits] using this

/-! ## Retry-loop lemmas -/

/-- If every attempt in the window fails, the loop exhausts its fuel:
no response, exactly `fuel` attempts. -/
theorem loopGo_all_fail (oracle : Nat → AttemptOutcome) :
    ∀ (fuel start : Nat) (lastErr : Option String),
      (∀ i, start ≤ i → i < start + fuel → (oracle i).isFailureB = true) →
      (loopGo oracle start fuel lastErr).1 = none ∧
        (loopGo oracle start fuel lastErr).2.1 = fuel := by
  intro fuel
  induction fuel with
  | zero => intro start lastErr _; simp [loopGo]
  | succ f ih =>
    intro start lastErr h
    have hs := h start (Nat.le_refl _) (by omega)
    rw [loopGo]
    cases ho : oracle start with
    | success r => rw [ho] at hs; simp [AttemptOutcome.isFailureB] at hs
    | failure e =>
      have h12 := ih (start + 1) (some e) (fun i hi1 hi2 => h i (by omega) (by omega))
      rcases hl : loopGo oracle (start + 1) f (some e) with ⟨res, n, le⟩
      rw [hl] at h12
      simp only [hl]
      simp at h12
      simp [h12.1, h12.2]

/-- If attempt `start+j` is the first to receive a response, the loop stops
there: that response, `j+1` attempts. -/
theorem loopGo_first_success (oracle : Nat → AttemptOutcome) (resp : HttpResponse) :
    ∀ (j fuel start : Nat) (lastErr : Option String),
      j < fuel →
      oracle (start + j) = .success resp →
      (∀ i, i < j → (oracle (start + i)).isFailureB = true) →
      (loopGo oracle start fuel lastErr).1 = some resp ∧
        (loopGo oracle start fuel lastErr).2.1 = j + 1 := by
  intro j
  induction j with
  | zero =>
    intro fuel start lastErr hj hsucc _
    cases fuel with
    | zero => omega
    | succ f => simp only [loopGo]; rw [show start + 0 = start from rfl] at hsucc
                rw [hsucc]
                exact ⟨rfl, rfl⟩
  | succ j ih =>
    intro fuel start lastErr hj hsucc hfail
    cases fuel with
    | zero => omega
    | succ f =>
      have h0 := hfail 0 (by omega)
      rw [loopGo]
      cases ho : oracle start with
      | success r =>
        rw [show start + 0 = start from rfl, ho] at h0
        simp [AttemptOutcome.isFailureB] at h0
      | failure e =>
        have := ih f (start + 1) (some e) (by omega)
          (by rw [show start + 1 + j = start + (j + 1) by omega]; exact hsucc)
          (fun i hi => by
            rw [show start + 1 + i = start + (i + 1) by omega]
            exact hfail (i + 1) (by omega))
        rcases this with ⟨h1, h2⟩
        rcases hl : loopGo oracle (start + 1) f (some e) with ⟨res, n, le⟩
        rw [hl] at h1 h2
        simp only [hl]
        simp at h1 h2
        simp [h1, h2]

/-- C2: for every `CallResult` produced by `httpCall`, `ok` holds iff the
status is in `[200, 300)`; and when every attempt fails (all retries
exhausted) the result has `status = 0`, `ok = false`, an `error` string
present, and empty `text`. -/
theorem httpCall_ok_iff_status_and_total_failure_shape
    (cfg : HttpConfig) (oracle : Nat → AttemptOutcome) (opts : CallOpts)
    (r : CallResult) (n : Nat)
    (hcall : httpCallFull cfg oracle opts = .ok (r, n)) :
    (r.ok = true ↔ 200 ≤ r.status ∧ r.status < 300) ∧
    ((∀ i, i ≤ cfg.maxRetries → (oracle i).isFailureB = true) →
      r.status = 0 ∧ r.ok = false ∧ r.error.isSome = true ∧ r.text = "") := by
  unfold httpCallFull at hcall
  cases hqs : buildQS opts.query with
  | error e => rw [hqs] at hcall; exact absurd hcall (by simp)
  | ok qs =>
    rw [hqs] at hcall
    rcases hl : loopGo oracle 0 (cfg.maxRetries + 1) none with ⟨res, m, le⟩
    rw [hl] at hcall
    cases res with
    | some resp =>
      simp only [Except.ok.injEq, Prod.mk.injEq] at hcall
      obtain ⟨hr, hn⟩ := hcall
      subst hr
      constructor
      · simp
      · intro hall
        have := (loopGo_all_fail oracle (cfg.maxRetries + 1) 0 none
          (fun i _ hi2 => hall i (by omega))).1
        rw [hl] at this
        simp at this
    | none =>
      simp only [Except.ok.injEq, Prod.mk.injEq] at hcall
      obtain ⟨hr, hn⟩ := hcall
      subst hr
      constructor
      · simp
      · intro _
        refine ⟨rfl, rfl, rfl, rfl⟩

/-- C3: `httpCall` retries only transport-level failures: when every attempt
fails it makes exactly `MAX_RETRIES + 1` attempts, and on the first attempt
that receives a response — whatever the HTTP status, 500 included — it stops
immediately and returns that attempt's result. -/
theorem httpCall_retry_budget_and_stop_on_response
    (cfg : HttpConfig) (oracle : Nat → AttemptOutcome) (opts : CallOpts)
    (r : CallResult) (n : Nat)
    (hcall : httpCallFull cfg oracle opts = .ok (r, n)) :
    ((∀ i, i ≤ cfg.maxRetries → (oracle i).isFailureB = true) → n = cfg.maxRetries + 1) ∧
    (∀ k resp, k ≤ cfg.maxRetries → oracle k = .success resp →
      (∀ i, i < k → (oracle i).isFailureB = true) →
      n = k + 1 ∧ r.status = resp.statusCode ∧ r.text = resp.bodyText ∧
        r.headers = normRespHeaders resp.headers ∧ r.json = asJsonMaybe resp.bodyText ∧
        r.ok = decide (200 ≤ resp.statusCode ∧ resp.statusCode < 300)) := by
  unfold httpCallFull at hcall
  cases hqs : buildQS opts.query with
  | error e => rw [hqs] at hcall; exact absurd hcall (by simp)
  | ok qs =>
    rw [hqs] at hcall
    rcases hl : loopGo oracle 0 (cfg.maxRetries + 1) none with ⟨res, m, le⟩
    rw [hl] at hcall
    cases res with
    | some resp0 =>
      simp only [Except.ok.injEq, Prod.mk.injEq] at hcall
      obtain ⟨hr, hn⟩ := hcall
      subst hr; subst hn
      constructor
      · intro hall
        have := (loopGo_all_fail oracle (cfg.maxRetries + 1) 0 none
          (fun i _ hi2 => hall i (by omega))).1
        rw [hl] at this
        simp at this
      · intro k resp hk hsucc hfail
        have hfs := loopGo_first_success oracle resp k (cfg.maxRetries + 1) 0 none
          (by omega) (by simpa using hsucc) (fun i hi => by simpa using hfail i hi)
        rw [hl] at hfs
        simp at hfs
        obtain ⟨hresp, hm⟩ := hfs
        subst hresp
        exact ⟨hm, rfl, rfl, rfl, rfl, by simp⟩
    | none =>
      simp only [Except.ok.injEq, Prod.mk.injEq] at hcall
      obtain ⟨hr, hn⟩ := hcall
      subst hr; subst hn
      constructor
      · intro hall
        have h2 := (loopGo_all_fail oracle (cfg.maxRetries + 1) 0 none
          (fun i _ hi2 => hall i (by omega))).2
        rw [hl] at h2
        simpa using h2
      · intro k resp hk hsucc hfail
        have hfs := loopGo_first_success oracle resp k (cfg.maxRetries + 1) 0 none
          (by omega) (by simpa using hsucc) (fun i hi => by simpa using hfail i hi)
        rw [hl] at hfs
        simp at hfs

/-! ## Well-formed queries make `httpCall` total (claim C1) -/

/-- A query value is well-formed if any string in it has no lone surrogate. -/
def wfQVal : QVal → Bool
  | .str s => wellFormedUnits s
  | _ => true

/-- All query keys and string values are well-formed UTF-16. -/
def wfQuery : Option (List (List Nat × QVal)) → Bool
  | none => true
  | some q => q.all (fun kv => wellFormedUnits kv.1 && wfQVal kv.2)

theorem qvalToUnits_wf (v : QVal) (h : wfQVal v = true) :
    wellFormedUnits (qvalToUnits v) = true := by
  cases v with
  | str s => exact h
  | num n => exact wf_strToUnits _
  | bool b => cases b <;> exact wf_strToUnits _
  | null => exact wf_strToUnits _
  | undef => exact wf_strToUnits _

theorem encodePair_ok (kv : List Nat × QVal)
    (h1 : wellFormedUnits kv.1 = true) (h2 : wfQVal kv.2 = true) :
    exceptOk (encodePair kv) = true := by
  unfold encodePair encodeURIComponent
  have e1 := encodeGo_ok kv.1 h1
  have e2 := encodeGo_ok (qvalToUnits kv.2) (qvalToUnits_wf kv.2 h2)
  cases hx : encodeGo kv.1 with
  | error e => rw [hx] at e1; simp [exceptOk] at e1
  | ok k =>
    cases hy : encodeGo (qvalToUnits kv.2) with
    | error e => rw [hy] at e2; simp [exceptOk] at e2
    | ok vv => simp [exceptOk]

theorem encodePairs_ok (l : List (List Nat × QVal))
    (h : ∀ kv ∈ l, wellFormedUnits kv.1 = true ∧ wfQVal kv.2 = true) :
    exceptOk (encodePairs l) = true := by
  induction l with
  | nil => rfl
  | cons kv rest ih =>
    have hp := encodePair_ok kv (h kv (by simp)).1 (h kv (by simp)).2
    rw [encodePairs]
    cases hx : encodePair kv with
    | error e => rw [hx] at hp; simp [exceptOk] at hp
    | ok s' =>
      have hr := ih (fun kv2 hm => h kv2 (by simp [hm]))
      cases hy : encodePairs rest with
      | error e => rw [hy] at hr; simp [exceptOk] at hr
      | ok ss => simp [exceptOk]

theorem buildQS_ok (q : Option (List (List Nat × QVal))) (h : wfQuery q = true) :
    exceptOk (buildQS q) = true := by
  cases q with
  | none => rfl
  | some l =>
    rw [buildQS]
    by_cases hlen : l.length = 0
    · simp [hlen, exceptOk]
    · rw [if_neg hlen]
      simp only [wfQuery, List.all_eq_true, Bool.and_eq_true] at h
      have hep := encodePairs_ok (l.filter (fun kv => !qvalIsNullish kv.2))
        (fun kv hm => h kv (List.mem_of_mem_filter hm))
      cases hx : encodePairs (l.filter (fun kv => !qvalIsNullish kv.2)) with
      | error e => rw [hx] at hep; simp [exceptOk] at hep
      | ok parts => simp [exceptOk]

theorem httpCallFull_ok_of_wf (cfg : HttpConfig) (oracle : Nat → AttemptOutcome)
    (opts : CallOpts) (h : wfQuery opts.query = true) :
    ∃ r n, httpCallFull cfg oracle opts = .ok (r, n) := by
  unfold httpCallFull
  have hq := buildQS_ok opts.query h
  cases hx : buildQS opts.query with
  | error e => rw [hx] at hq; simp [exceptOk] at hq
  | ok qs =>
    rcases hl : loopGo oracle 0 (cfg.maxRetries + 1) none with ⟨res, m, le⟩
    cases res <;> exact ⟨_, _, rfl⟩

/-! ## Claim theorems for the call engine -/

/-- A config and oracles for concrete evaluations. -/
def cfgTest : HttpConfig := ⟨"", 2⟩

def oracleAllFail : Nat → AttemptOutcome := fun _ => .failure "timeout"

def resp500 : HttpResponse := ⟨500, [("x-a", ["a"])], "oops"⟩

def oracle500 : Nat → AttemptOutcome := fun i =>
  if i = 1 then .success resp500 else .failure "connect ECONNREFUSED"

def optsTest : CallOpts := { url := "https://api.example.com/x", method := "GET" }

/-- A `CallRequest` whose query value holds a lone lead surrogate — a value
expressible in a JavaScript string (e.g. arriving as the JSON escape
`"\uD800"` in the protocol payload). -/
def loneSurrogateOpts : CallOpts :=
  { url := "https://api.example.com/x", method := "GET",
    query := some [(strToUnits "k", QVal.str [0xD800])] }

/-- C1, counterexample: `httpCall` is NOT exception-free for every
`CallRequest` — a query value with a lone surrogate makes
`encodeURIComponent` throw `URIError` in the query-string construction,
which sits outside the retry loop's `try`/`catch`, so the exception
escapes `httpCall` instead of being encoded in a `CallResult`. -/
theorem httpCall_raises_on_lone_surrogate :
    httpCall cfgTest oracleAllFail loneSurrogateOpts = .error () := rfl

/-- C1, amended: for every `CallRequest` whose query keys and string
values are well-formed UTF-16 (no lone surrogates) — in particular for
every query expressible as well-formed Unicode — `httpCall` returns a
`CallResult` and never raises; all failure is encoded in the result. -/
theorem httpCall_total_of_wellformed_query (cfg : HttpConfig)
    (oracle : Nat → AttemptOutcome) (opts : CallOpts)
    (h : wfQuery opts.query = true) :
    ∃ r, httpCall cfg oracle opts = .ok r := by
  obtain ⟨r, n, hr⟩ := httpCallFull_ok_of_wf cfg oracle opts h
  exact ⟨r, by unfold httpCall; rw [hr]⟩

/-- A well-formed query exercising every value kind. -/
def optsQuery : CallOpts :=
  { url := "https://api.example.com/x", method := "GET",
    query := some [(strToUnits "a", .str (strToUnits "b c€")),
                   (strToUnits "n", .num ⟨15, -1⟩),
                   (strToUnits "b", .bool true),
                   (strToUnits "nil", .null)] }

theorem httpCall_total_of_wellformed_query_witness :
    wfQuery optsQuery.query = true ∧
      ∃ r, httpCall cfgTest oracleAllFail optsQuery = .ok r :=
  ⟨rfl, httpCall_total_of_wellformed_query cfgTest oracleAllFail optsQuery rfl⟩

theorem httpCall_ok_iff_status_and_total_failure_shape_witness :
    ∃ r n, httpCallFull cfgTest oracleAllFail optsTest = .ok (r, n) ∧
      r.status = 0 ∧ r.ok = false ∧ r.error.isSome = true ∧ r.text = "" := by
  refine ⟨_, _, rfl, ?_⟩
  exact (httpCall_ok_iff_status_and_total_failure_shape cfgTest oracleAllFail optsTest
    _ _ rfl).2 (fun i _ => rfl)

theorem httpCall_retry_budget_and_stop_on_response_witness :
    (∃ r n, httpCallFull cfgTest oracleAllFail optsTest = .ok (r, n) ∧ n = 3) ∧
    (∃ r n, httpCallFull cfgTest oracle500 optsTest = .ok (r, n) ∧
      n = 2 ∧ r.status = 500 ∧ r.ok = false) := by
  constructor
  · refine ⟨_, _, rfl, ?_⟩
    exact (httpCall_retry_budget_and_stop_on_response cfgTest oracleAllFail optsTest
      _ _ rfl).1 (fun i _ => rfl)
  · refine ⟨_, _, rfl, ?_⟩
    have h := (httpCall_retry_budget_and_stop_on_response cfgTest oracle500 optsTest
      _ _ rfl).2 1 resp500 (by decide) rfl
      (fun i hi => by
        have h0 : i = 0 := by omega
        subst h0; rfl)
    exact ⟨h.1, h.2.1, by rw [h.2.2.2.2.2]; rfl⟩

/-! ## Header redaction (claim C7) and composition (claim C8) -/

/-- C7: `redactHeaders` keeps exactly the input's keys, replaces the value
of every key whose lower-cased form contains `authorization` or `api-key`
by the fixed marker, and leaves every other value unchanged; and the
`requestHeaders` field of every `CallResult` is the redaction of the
composed request headers. -/
theorem redactHeaders_redacts_sensitive_keys :
    (∀ headers : List (String × String),
      (redactHeaders headers).map Prod.fst = headers.map Prod.fst ∧
      ∀ i (hi : i < headers.length) (hi2 : i < (redactHeaders headers).length),
        (redactHeaders headers).get ⟨i, hi2⟩ =
          ((headers.get ⟨i, hi⟩).1,
            if strIncludes (asciiLower (headers.get ⟨i, hi⟩).1) "authorization"
                || strIncludes (asciiLower (headers.get ⟨i, hi⟩).1) "api-key"
            then redactionMarker else (headers.get ⟨i, hi⟩).2)) ∧
    (∀ cfg oracle opts r n, httpCallFull cfg oracle opts = Except.ok (r, n) →
      r.requestHeaders =
        redactHeaders (mkFinalHeaders cfg.apiToken (mkPayload opts.body) opts.headers)) := by
  constructor
  · intro headers
    constructor
    · simp [redactHeaders]
    · intro i hi hi2
      simp [redactHeaders, sensitiveKey]
  · intro cfg oracle opts r n hcall
    unfold httpCallFull at hcall
    cases hqs : buildQS opts.query with
    | error e => rw [hqs] at hcall; exact absurd hcall (by simp)
    | ok qs =>
      rw [hqs] at hcall
      rcases hl : loopGo oracle 0 (cfg.maxRetries + 1) none with ⟨res, m, le⟩
      rw [hl] at hcall
      cases res with
      | some resp =>
        simp only [Except.ok.injEq, Prod.mk.injEq] at hcall
        obtain ⟨hr, _⟩ := hcall
        subst hr
        rfl
      | none =>
        simp only [Except.ok.injEq, Prod.mk.injEq] at hcall
        obtain ⟨hr, _⟩ := hcall
        subst hr
        rfl

theorem redactHeaders_redacts_sensitive_keys_witness :
    (redactHeaders [("X-Api-Key", "s3cr3t"), ("accept", "json")]).get ⟨0, by decide⟩
        = ("X-Api-Key", redactionMarker) ∧
    (redactHeaders [("X-Api-Key", "s3cr3t"), ("accept", "json")]).get ⟨1, by decide⟩
        = ("accept", "json") ∧
    (∃ r n, httpCallFull cfgTest oracleAllFail optsTest = .ok (r, n) ∧
      r.requestHeaders =
        redactHeaders (mkFinalHeaders cfgTest.apiToken (mkPayload optsTest.body)
          optsTest.headers)) := by
  refine ⟨?_, ?_, ?_⟩
  · rw [((redactHeaders_redacts_sensitive_keys.1
      [("X-Api-Key", "s3cr3t"), ("accept", "json")]).2 0 (by decide) (by decide))]
    rfl
  · rw [((redactHeaders_redacts_sensitive_keys.1
      [("X-Api-Key", "s3cr3t"), ("accept", "json")]).2 1 (by decide) (by decide))]
    rfl
  · refine ⟨_, _, rfl, ?_⟩
    exact redactHeaders_redacts_sensitive_keys.2 cfgTest oracleAllFail optsTest _ _ rfl

theorem objLookup_foldl_insert (caller base : List (String × String)) (k : String)
    (hnd : (caller.map Prod.fst).Nodup) :
    objLookup (caller.foldl (fun acc kv => objInsert acc kv.1 kv.2) base) k =
      ((objLookup caller k).orElse (fun _ => objLookup base k)) := by
  induction caller generalizing base with
  | nil => simp [objLookup, Option.orElse]
  | cons kv rest ih =>
    simp only [List.foldl_cons]
    have hnd2 : (rest.map Prod.fst).Nodup := by
      simp only [List.map_cons, List.nodup_cons] at hnd
      exact hnd.2
    rw [ih _ hnd2]
    by_cases hk : kv.1 = k
    · have hnone : objLookup rest k = none := by
        apply objLookup_none_of_not_any
        simp only [List.map_cons, List.nodup_cons] at hnd
        rw [List.any_eq_false]
        intro x hx
        simp only [decide_eq_true_eq]
        intro hxk
        exact hnd.1 (by
          rw [← hk, ← hxk] at *
          exact List.mem_map_of_mem Prod.fst hx)
      rw [hnone]
      rw [objLookup_objInsert, if_pos hk.symm]
      simp [objLookup, hk, Option.orElse]
    · have hkk : ¬ k = kv.1 := fun hh => hk hh.symm
      rw [objLookup_objInsert, if_neg hkk]
      simp [objLookup, hk, Option.orElse]

theorem objLookup_b2 (p : Option String) (k : String) :
    objLookup (if payloadTruthy p = true then
        objInsert [("user-agent", "mcp-api-tester/1.0")] "content-type" "application/json"
      else [("user-agent", "mcp-api-tester/1.0")]) k
    = (if k = "content-type" ∧ payloadTruthy p = true then some "application/json"
       else if k = "user-agent" then some "mcp-api-tester/1.0" else none) := by
  by_cases hp : payloadTruthy p = true
  · rw [if_pos hp, objLookup_objInsert]
    by_cases h2 : k = "content-type"
    · rw [if_pos h2, if_pos ⟨h2, hp⟩]
    · rw [if_neg h2,
        if_neg (show ¬(k = "content-type" ∧ payloadTruthy p = true) from fun hh => h2 hh.1)]
      by_cases h3 : k = "user-agent"
      · rw [if_pos h3]
        simp [objLookup, h3]
      · rw [if_neg h3]
        simp [objLookup, Ne.symm h3]
  · rw [if_neg hp,
      if_neg (show ¬(k = "content-type" ∧ payloadTruthy p = true) from fun hh => hp hh.2)]
    by_cases h3 : k = "user-agent"
    · rw [if_pos h3]
      simp [objLookup, h3]
    · rw [if_neg h3]
      simp [objLookup, Ne.symm h3]

/-- C8, amended: the outgoing headers are composed from a fixed user-agent,
`content-type: application/json` exactly when the serialized payload is
truthy (present AND non-empty — a present empty-string body adds no
content-type), an `authorization` header when a non-empty token is
configured, with caller headers winning on any key conflict. -/
theorem finalHeaders_composition (token : String) (body : Option BodyVal)
    (caller : List (String × String)) (hnd : (caller.map Prod.fst).Nodup) (k : String) :
    objLookup (mkFinalHeaders token (mkPayload body) caller) k =
      ((objLookup caller k).orElse (fun _ =>
        if k = "authorization" ∧ token ≠ "" then some token
        else if k = "content-type" ∧ payloadTruthy (mkPayload body) = true then
          some "application/json"
        else if k = "user-agent" then some "mcp-api-tester/1.0"
        else none)) := by
  unfold mkFinalHeaders
  rw [objLookup_foldl_insert _ _ _ hnd]
  cases hc : objLookup caller k with
  | some v => simp [Option.orElse]
  | none =>
    simp only [Option.orElse]
    by_cases ht : token ≠ ""
    · rw [if_pos ht, objLookup_objInsert]
      by_cases h1 : k = "authorization"
      · rw [if_pos h1, if_pos ⟨h1, ht⟩]
      · rw [if_neg h1,
          if_neg (show ¬(k = "authorization" ∧ token ≠ "") from fun hh => h1 hh.1),
          objLookup_b2]
    · rw [if_neg ht,
        if_neg (show ¬(k = "authorization" ∧ token ≠ "") from fun hh => ht hh.2),
        objLookup_b2]

/-- C8, counterexample: a present but empty-string body adds NO
`content-type` header — `...(payload ? {"content-type": ...} : {})` tests
JS truthiness and the empty string is falsy — though the claim says the
header is added exactly when a body is present. -/
theorem contentType_missing_for_present_empty_body :
    (some (BodyVal.str "") : Option BodyVal).isSome = true ∧
    objLookup (mkFinalHeaders "" (mkPayload (some (BodyVal.str ""))) []) "content-type"
      = none :=
  ⟨rfl, rfl⟩

/-- Caller headers for concrete evaluation (distinct keys, as in a JS object). -/
def callerHdrs : List (String × String) := [("user-agent", "custom/2.0"), ("x-trace", "t")]

theorem finalHeaders_composition_witness :
    objLookup (mkFinalHeaders "Bearer tok" (mkPayload (some (.str "\x7b\x7d"))) callerHdrs)
        "user-agent" = some "custom/2.0" ∧
    objLookup (mkFinalHeaders "Bearer tok" (mkPayload (some (.str "\x7b\x7d"))) callerHdrs)
        "authorization" = some "Bearer tok" ∧
    objLookup (mkFinalHeaders "Bearer tok" (mkPayload (some (.str "\x7b\x7d"))) callerHdrs)
        "content-type" = some "application/json" ∧
    objLookup (mkFinalHeaders "Bearer tok" (mkPayload (some (.str "\x7b\x7d"))) callerHdrs)
        "x-trace" = some "t" := by
  have hnd : (callerHdrs.map Prod.fst).Nodup := by decide
  refine ⟨?_, ?_, ?_, ?_⟩ <;> rw [finalHeaders_composition _ _ _ hnd] <;> rfl

/-! ## Query normalization (`normQuery` in the `http_request` handler, claim C6)

`Number(v)` on strings is the ECMAScript `StringToNumber` conversion:
trim ECMAScript whitespace; empty → 0; a signed decimal literal (optionally
fractional/exponential), `Infinity`, or an unsigned `0x`/`0o`/`0b` integer;
anything else → `NaN`.  The literal's exact value is then rounded to the
nearest IEEE binary64 value (ties to even): magnitudes at or beyond the
rounding boundary `2^1024 - 2^970` overflow to `Infinity` — which fails the
handler's `Number.isFinite` guard, so e.g. `"1e400"` stays a string — and
magnitudes below `2^-1075` underflow to `0`; every finite double is an
exact decimal, held in canonical `JSNumber` form. -/

/-- The result of `Number(string)`. -/
inductive JSNum where
  | nan
  | inf (neg : Bool)
  | finite (n : JSNumber)
deriving DecidableEq

/-- ECMAScript `StrWhiteSpace` characters (WhiteSpace ∪ LineTerminator). -/
def jsWhitespace (c : Char) : Bool :=
  c = ' ' || c = '\t' || c = '\n' || c = '\r' || c = '\x0b' || c = '\x0c' ||
    c = ' ' || c = '﻿' || c = ' ' ||
    (0x2000 ≤ c.toNat && c.toNat ≤ 0x200A) ||
    c = ' ' || c = ' ' || c = ' ' || c = ' ' || c = '　'

/-- Trim `StrWhiteSpace` from both ends. -/
def jsTrimChars (l : List Char) : List Char :=
  ((l.dropWhile jsWhitespace).reverse.dropWhile jsWhitespace).reverse

/-- JavaScript `String.prototype.trim`. -/
def jsTrim (s : String) : String := String.mk (jsTrimChars s.data)

/-- Binary exponentiation.  Shallow recursion (`log2 e` steps) so that
large powers evaluate without deep unfolding; the fuel `e` always
suffices. -/
def powAux : Nat → Nat → Nat → Nat
  | 0, _, _ => 1
  | fuel+1, b, e =>
    if e = 0 then 1
    else (if e % 2 = 1 then b else 1) * powAux fuel (b * b) (e / 2)

def powNat (b e : Nat) : Nat := powAux e b e

example : powNat 2 10 = 1024 := rfl
example : powNat 10 3 = 1000 := rfl
example : powNat 3 0 = 1 := rfl

/-- An upper bound `k` (reached by doubling) with `n < 2^k`. -/
def blDouble : Nat → Nat → Nat → Nat
  | 0, _, k => k
  | fuel+1, n, k => if n < powNat 2 k then k else blDouble fuel n (k * 2)

/-- Binary search for the least `k` with `n < 2^k`, given `2^lo ≤ n < 2^hi`. -/
def blSearch : Nat → Nat → Nat → Nat → Nat
  | 0, _, _, hi => hi
  | fuel+1, n, lo, hi =>
    if hi ≤ lo + 1 then hi
    else
      let mid := (lo + hi) / 2
      if n < powNat 2 mid then blSearch fuel n lo mid else blSearch fuel n mid hi

/-- Bit length of a natural number (`⌊log2 n⌋ + 1` for `n > 0`, else 0). -/
def bitLen (n : Nat) : Nat :=
  if n = 0 then 0
  else
    let hi := blDouble n n 1
    blSearch hi n 0 hi

example : bitLen 0 = 0 := rfl
example : bitLen 1 = 1 := rfl
example : bitLen 255 = 8 := rfl
example : bitLen 256 = 9 := rfl

/-- Is `N / D ≥ 2^E` (for `D > 0`)? -/
def geShift (N D : Nat) (E : Int) : Bool :=
  match E with
  | .ofNat e => decide (D * powNat 2 e ≤ N)
  | .negSucc k => decide (D ≤ N * powNat 2 (k+1))

/-- `⌊log2 (N/D)⌋` for `N, D > 0`: the bit-length difference, corrected by
one comparison. -/
def floorLog2ND (N D : Nat) : Int :=
  let L : Int := (bitLen N : Int) - (bitLen D : Int)
  if geShift N D L then L else L - 1

/-- Round the non-negative rational `N / D` (`D > 0`) to the nearest IEEE
binary64 value, ties to even: `none` is overflow to `Infinity`;
`some ⟨0, 0⟩` is underflow to zero; otherwise the double's exact value
(`q × 2^E` with `2^52 ≤ q < 2^53`, or subnormal at `E = -1074`) rendered in
canonical decimal form. -/
def roundPosToDouble (N D : Nat) : Option JSNumber :=
  let E : Int := max (floorLog2ND N D - 52) (-1074)
  let nd : Nat × Nat :=
    match E with
    | .ofNat e => (N, D * powNat 2 e)
    | .negSucc k => (N * powNat 2 (k+1), D)
  let q0 := nd.1 / nd.2
  let r := nd.1 % nd.2
  let q := if nd.2 < 2 * r then q0 + 1
           else if 2 * r < nd.2 then q0
           else if q0 % 2 = 0 then q0 else q0 + 1
  let qE : Nat × Int := if q = powNat 2 53 then (powNat 2 52, E + 1) else (q, E)
  if qE.1 = 0 then some ⟨0, 0⟩
  else if 972 ≤ qE.2 then none
  else
    match qE.2 with
    | .ofNat e => some (JSNumber.canon (qE.1 * powNat 2 e) 0)
    | .negSucc k => some (JSNumber.canon (qE.1 * powNat 5 (k+1)) (-(k+1 : Int)))

/-- `m × 10^ex` rounded to binary64. -/
def roundDecToDouble (m : Nat) (ex : Int) : Option JSNumber :=
  match ex with
  | .ofNat e => roundPosToDouble (m * powNat 10 e) 1
  | .negSucc k => roundPosToDouble m (powNat 10 (k+1))

example : roundDecToDouble 1 (-1)
  = some ⟨1000000000000000055511151231257827021181583404541015625, -55⟩ := rfl
example : roundDecToDouble 123456789012345678 0 = some ⟨12345678901234568, 1⟩ := rfl
example : roundDecToDouble 9007199254740993 0 = some ⟨9007199254740992, 0⟩ := rfl
example : roundDecToDouble 9007199254740995 0 = some ⟨9007199254740996, 0⟩ := rfl
example : roundDecToDouble 17976931348623157 292
  = some ⟨179769313486231570814527423731704356798070567525844996598917476803157260780028538760589558632766878171540458953514382464234321326889464182768467546703537516986049910576551282076245490090389328944075868508455133942304583236903222948165808559332123348274797826204144723168738177180919299881250404026184124858368, 0⟩ := rfl
example : roundDecToDouble 17976931348623158 292
  = some ⟨179769313486231570814527423731704356798070567525844996598917476803157260780028538760589558632766878171540458953514382464234321326889464182768467546703537516986049910576551282076245490090389328944075868508455133942304583236903222948165808559332123348274797826204144723168738177180919299881250404026184124858368, 0⟩ := rfl
example : roundDecToDouble 17976931348623159 292 = none := rfl
example : roundDecToDouble 1 (-400) = some ⟨0, 0⟩ := rfl

/-- Digit value in radix `b ≤ 16`, if valid. -/
def radixDigitVal (b : Nat) (c : Char) : Option Nat :=
  match hexVal c with
  | some v => if v < b then some v else none
  | none => none

/-- An unsigned radix-`b` integer covering the whole input, converted to a
double (overflowing to `Infinity` from `2^1024` on). -/
def parseRadix (b : Nat) (l : List Char) : JSNum :=
  match l with
  | [] => .nan
  | _ =>
    match l.foldl (fun acc c =>
        match acc, radixDigitVal b c with
        | some n, some d => some (n * b + d)
        | _, _ => none) (some 0) with
    | some n =>
      match roundDecToDouble n 0 with
      | some d => .finite d
      | none => .inf false
    | none => .nan

/-- `StrUnsignedDecimalLiteral` without `Infinity`, covering the whole
input: `digits ('.' digits?)? exp?` or `'.' digits exp?`; yields the exact
magnitude `digits × 10^exp` before double rounding. -/
def parseDecValue (l : List Char) : Option (Nat × Int) :=
  match l.span isDigitCh with
  | (ip, '.' :: r2) =>
    match r2.span isDigitCh with
    | (fp, r3) => if ip = [] ∧ fp = [] then none else parseDecExp ip fp r3
  | (ip, r1) => if ip = [] then none else parseDecExp ip [] r1
where
  parseDecExp (ip fp r : List Char) : Option (Nat × Int) :=
    match r with
    | [] => some (digitsToNat (ip ++ fp), -(fp.length : Int))
    | e :: r2 =>
      if e = 'e' ∨ e = 'E' then
        match parseExpPart r2 with
        | some (ex, []) => some (digitsToNat (ip ++ fp), ex - fp.length)
        | _ => none
      else none

/-- Negation (canonical form is preserved). -/
def JSNumber.neg (n : JSNumber) : JSNumber := ⟨-n.mant, n.exp10⟩

/-- Signed decimal literal or `Infinity`; the literal's exact value is
rounded to the nearest double, overflowing to `±Infinity`. -/
def parseDecSigned (t : List Char) : JSNum :=
  match t with
  | '+' :: r => parseDecUnsigned r false
  | '-' :: r => parseDecUnsigned r true
  | _ => parseDecUnsigned t false
where
  parseDecUnsigned (r : List Char) (neg : Bool) : JSNum :=
    if r = ['I', 'n', 'f', 'i', 'n', 'i', 't', 'y'] then .inf neg
    else
      match parseDecValue r with
      | some me =>
        match roundDecToDouble me.1 me.2 with
        | some n => .finite (if neg then n.neg else n)
        | none => .inf neg
      | none => .nan

/-- ECMAScript `StringToNumber`: the value of `Number(s)` for a string. -/
def jsStrToNumber (s : String) : JSNum :=
  match jsTrimChars s.data with
  | [] => .finite ⟨0, 0⟩
  | '0' :: c :: rest =>
    if c = 'x' ∨ c = 'X' then parseRadix 16 rest
    else if c = 'o' ∨ c = 'O' then parseRadix 8 rest
    else if c = 'b' ∨ c = 'B' then parseRadix 2 rest
    else parseDecSigned ('0' :: c :: rest)
  | t => parseDecSigned t

example : jsStrToNumber "1e10" = .finite ⟨1, 10⟩ := rfl
example : jsStrToNumber " 5" = .finite ⟨5, 0⟩ := rfl
example : jsStrToNumber "" = .finite ⟨0, 0⟩ := rfl
example : jsStrToNumber "NaN" = .nan := rfl
example : jsStrToNumber "-0.50" = .finite ⟨-5, -1⟩ := rfl
example : jsStrToNumber "0x1A" = .finite ⟨26, 0⟩ := rfl
example : jsStrToNumber "-Infinity" = .inf true := rfl
example : jsStrToNumber "12px" = .nan := rfl
example : jsStrToNumber "  \t\n " = .finite ⟨0, 0⟩ := rfl
example : jsStrToNumber "1e400" = .inf false := rfl
example : jsStrToNumber "-1e400" = .inf true := rfl
example : jsStrToNumber "1e-400" = .finite ⟨0, 0⟩ := rfl
example : jsStrToNumber "5.000000000000000001" = .finite ⟨5, 0⟩ := rfl
example : jsStrToNumber "0.1"
  = .finite ⟨1000000000000000055511151231257827021181583404541015625, -55⟩ := rfl

/-- One normalized query value: `boolean | number | string`. -/
inductive QNorm where
  | b (b : Bool)
  | n (n : JSNumber)
  | s (s : String)
deriving DecidableEq

/-- Per-value normalization of the `http_request` handler (index.ts
lines 190–197): literal `"true"`/`"false"` become booleans; otherwise a
string that `Number()` maps to a finite value and that is non-empty after
trimming becomes that number; otherwise it stays a string. -/
def normValue (v : String) : QNorm :=
  if v = "true" then .b true
  else if v = "false" then .b false
  else
    match jsStrToNumber v with
    | .finite n => if jsTrim v ≠ "" then .n n else .s v
    | _ => .s v

/-- `normQuery`: every entry's value normalized independently. -/
def normQuery (q : List (String × String)) : List (String × QNorm) :=
  q.map (fun kv => (kv.1, normValue kv.2))

/-- C6: each query value is normalized independently, first match winning:
literal `"true"`/`"false"` become booleans; otherwise a value that is
non-empty after trimming and that `Number()` maps to a finite double
becomes that number (`"1e10"`, `" 5"`); everything else — `""`, `"NaN"`,
and `"1e400"` (whose `Number()` value overflows to `Infinity` and so fails
the `Number.isFinite` guard) — passes through unchanged as a string. -/
theorem normQuery_coercion_rules (q : List (String × String)) :
    normQuery q = q.map (fun kv => (kv.1, normValue kv.2)) ∧
    normValue "true" = .b true ∧
    normValue "false" = .b false ∧
    (∀ v n, v ≠ "true" → v ≠ "false" → jsStrToNumber v = .finite n → jsTrim v ≠ "" →
      normValue v = .n n) ∧
    (∀ v, v ≠ "true" → v ≠ "false" →
      ((∀ n, jsStrToNumber v ≠ .finite n) ∨ jsTrim v = "") → normValue v = .s v) ∧
    normValue "1e10" = .n ⟨1, 10⟩ ∧
    normValue " 5" = .n ⟨5, 0⟩ ∧
    normValue "" = .s "" ∧
    normValue "NaN" = .s "NaN" ∧
    normValue "1e400" = .s "1e400" ∧
    normValue "5.000000000000000001" = .n ⟨5, 0⟩ := by
  refine ⟨rfl, rfl, rfl, ?_, ?_, rfl, rfl, rfl, rfl, rfl, rfl⟩
  · intro v n h1 h2 h3 h4
    rw [normValue, if_neg h1, if_neg h2, h3]
    show (if jsTrim v ≠ "" then QNorm.n n else QNorm.s v) = QNorm.n n
    rw [if_pos h4]
  · intro v h1 h2 h3
    rw [normValue, if_neg h1, if_neg h2]
    cases h3 with
    | inl hno =>
      cases hj : jsStrToNumber v with
      | finite n => exact absurd hj (hno n)
      | nan => rfl
      | inf neg => rfl
    | inr hempty =>
      cases hj : jsStrToNumber v with
      | finite n =>
        show (if jsTrim v ≠ "" then QNorm.n n else QNorm.s v) = QNorm.s v
        rw [if_neg (not_not_intro hempty)]
      | nan => rfl
      | inf neg => rfl

theorem normQuery_coercion_rules_witness :
    normQuery [("a", "07")] = [("a", QNorm.n ⟨7, 0⟩)] ∧
    normValue "07" = .n ⟨7, 0⟩ ∧
    normValue "x7" = .s "x7" ∧
    normValue " " = .s " " ∧
    normValue "1e400" = .s "1e400" := by
  refine ⟨?_, ?_, ?_, ?_, ?_⟩
  · have h07 := (normQuery_coercion_rules []).2.2.2.1 "07" ⟨7, 0⟩ (by decide) (by decide)
      rfl (by decide)
    rw [(normQuery_coercion_rules [("a", "07")]).1]
    simp [h07]
  · exact (normQuery_coercion_rules []).2.2.2.1 "07" ⟨7, 0⟩ (by decide) (by decide) rfl
      (by decide)
  · exact (normQuery_coercion_rules []).2.2.2.2.1 "x7" (by decide) (by decide)
      (Or.inl (fun n h => by
        rw [show jsStrToNumber "x7" = JSNum.nan from rfl] at h
        exact JSNum.noConfusion h))
  · exact (normQuery_coercion_rules []).2.2.2.2.1 " " (by decide) (by decide)
      (Or.inr rfl)
  · exact (normQuery_coercion_rules []).2.2.2.2.1 "1e400" (by decide) (by decide)
      (Or.inl (fun n h => by
        rw [show jsStrToNumber "1e400" = JSNum.inf false from rfl] at h
        exact JSNum.noConfusion h))

/-! ## Session transport multiplexer (https-server `POST /mcp`, claims C4, C5)

The `transports` map is modelled as an association list from session id to
a transport identity (`Nat`).  The `mcp-session-id` header is
`Option String`; JavaScript truthiness makes the empty string count as
absent. -/

/-- Truthiness of `sessionId` (`undefined` and `""` are falsy). -/
def sidTruthy : Option String → Bool
  | none => false
  | some s => s ≠ ""

/-- Outcome of one `POST /mcp` request. -/
inductive PostResponse where
  | handledExisting (t : Nat)
  | handledNew (sid : String) (t : Nat)
  | badRequest (code : Int) (message : String)
deriving DecidableEq

/-- `POST /mcp` (index.ts lines 375–524): reuse a live session, create one
for an initialization request without session id (storing the fresh
transport before dispatch), otherwise answer the structured JSON-RPC
error. -/
def postMcp (m : List (String × Nat)) (sid : Option String) (isInit : Bool)
    (freshSid : String) (freshT : Nat) : List (String × Nat) × PostResponse :=
  match (if sidTruthy sid then objLookup m (sid.getD "") else none) with
  | some t => (m, .handledExisting t)
  | none =>
    if sidTruthy sid = false ∧ isInit = true then
      (objInsert m freshSid freshT, .handledNew freshSid freshT)
    else
      (m, .badRequest (-32000) "Bad Request: No valid session ID provided")

/-- `transport.onclose` (lines 399–403): delete the entry for the
transport's session id, if it has one. -/
def closeTransport (m : List (String × Nat)) (tSid : Option String) :
    List (String × Nat) :=
  match tSid with
  | some s => if s ≠ "" then m.filter (fun kv => kv.1 ≠ s) else m
  | none => m

/-- Outcome of a `GET /mcp` or `DELETE /mcp` request. -/
inductive SessionResponse where
  | invalid (msg : String)
  | handled (t : Nat)
deriving DecidableEq

/-- `handleSessionRequest` (lines 527–536). -/
def handleSessionRequest (m : List (String × Nat)) (sid : Option String) :
    SessionResponse :=
  if sidTruthy sid = false then .invalid "Invalid or missing session ID"
  else
    match objLookup m (sid.getD "") with
    | none => .invalid "Invalid or missing session ID"
    | some t => .handled t

/-- One multiplexer event: a POST, or a transport closure.  (GET/DELETE
never mutate the map.) -/
inductive MuxStep where
  | post (sid : Option String) (isInit : Bool) (freshSid : String) (freshT : Nat)
  | close (tSid : Option String)

/-- Effect of one event on the session map. -/
def muxStepMap (m : List (String × Nat)) : MuxStep → List (String × Nat)
  | .post sid isInit freshSid freshT => (postMcp m sid isInit freshSid freshT).1
  | .close tSid => closeTransport m tSid

/-- Run a sequence of events. -/
def runMux (m : List (String × Nat)) : List MuxStep → List (String × Nat)
  | [] => m
  | st :: rest => runMux (muxStepMap m st) rest

/-- Does a step mint the session id `s`? -/
def mintsSid (s : String) : MuxStep → Bool
  | .post _ _ freshSid _ => freshSid = s
  | .close _ => false

theorem objLookup_filter_ne_self (m : List (String × Nat)) (s : String) :
    objLookup (m.filter (fun kv => kv.1 ≠ s)) s = none := by
  induction m with
  | nil => rfl
  | cons kv rest ih =>
    rw [List.filter_cons]
    by_cases hk : kv.1 = s
    · rw [if_neg (by simp [hk])]
      exact ih
    · rw [if_pos (by simp [hk])]
      show (if kv.1 = s then some kv.2
            else objLookup (rest.filter (fun kv => kv.1 ≠ s)) s) = none
      rw [if_neg hk]
      exact ih

theorem objLookup_filter_ne_other (m : List (String × Nat)) (s k : String) (hk : k ≠ s) :
    objLookup (m.filter (fun kv => kv.1 ≠ s)) k = objLookup m k := by
  induction m with
  | nil => rfl
  | cons kv rest ih =>
    rw [List.filter_cons]
    by_cases h1 : kv.1 = s
    · rw [if_neg (by simp [h1])]
      have h2 : ¬ kv.1 = k := by rw [h1]; exact fun hh => hk hh.symm
      show objLookup (rest.filter (fun kv => kv.1 ≠ s)) k
        = if kv.1 = k then some kv.2 else objLookup rest k
      rw [if_neg h2]
      exact ih
    · rw [if_pos (by simp [h1])]
      show (if kv.1 = k then some kv.2 else objLookup (rest.filter (fun kv => kv.1 ≠ s)) k)
        = if kv.1 = k then some kv.2 else objLookup rest k
      by_cases h2 : kv.1 = k
      · rw [if_pos h2, if_pos h2]
      · rw [if_neg h2, if_neg h2]
        exact ih

/-- A session id that is not live stays not live under any event that does
not mint it. -/
theorem muxStep_preserves_absent (m : List (String × Nat)) (s : String)
    (st : MuxStep) (habs : objLookup m s = none) (hmint : mintsSid s st = false) :
    objLookup (muxStepMap m st) s = none := by
  cases st with
  | post sid isInit freshSid freshT =>
    simp only [mintsSid, decide_eq_false_iff_not] at hmint
    simp only [muxStepMap]
    unfold postMcp
    cases hex : (if sidTruthy sid then objLookup m (sid.getD "") else none) with
    | some t => exact habs
    | none =>
      by_cases hcond : sidTruthy sid = false ∧ isInit = true
      · rw [if_pos hcond]
        show objLookup (objInsert m freshSid freshT) s = none
        rw [objLookup_objInsert,
          if_neg (show ¬ s = freshSid from fun hh => hmint hh.symm)]
        exact habs
      · rw [if_neg hcond]
        exact habs
  | close tSid =>
    simp only [muxStepMap]
    cases tSid with
    | none => exact habs
    | some s2 =>
      simp only [closeTransport]
      by_cases h2 : s2 ≠ ""
      · rw [if_pos h2]
        by_cases hss : s = s2
        · subst hss; exact objLookup_filter_ne_self m s
        · rw [objLookup_filter_ne_other m s2 s hss]; exact habs
      · rw [if_neg h2]; exact habs

theorem runMux_preserves_absent (m : List (String × Nat)) (s : String) :
    ∀ steps : List MuxStep, objLookup m s = none →
      (∀ st ∈ steps, mintsSid s st = false) →
      objLookup (runMux m steps) s = none := by
  intro steps
  induction steps generalizing m with
  | nil => intro h _; exact h
  | cons st rest ih =>
    intro h hmint
    exact ih (muxStepMap m st)
      (muxStep_preserves_absent m s st h (hmint st (by simp)))
      (fun st2 hst2 => hmint st2 (by simp [hst2]))

/-- C5: on transport closure the multiplexer deletes exactly that session's
entry (closing again is a no-op), and no later request carrying that id
ever succeeds — as long as the (unguessable, fresh) ids of later sessions
differ from it — a POST falls into the rejected branch with the JSON-RPC
error and leaves the map untouched, and GET/DELETE get the invalid-session
response. -/
theorem transport_close_deletes_session_and_rejects
    (m : List (String × Nat)) (s : String) (hs : s ≠ "")
    (steps : List MuxStep) (hfresh : ∀ st ∈ steps, mintsSid s st = false) :
    objLookup (closeTransport m (some s)) s = none ∧
    (∀ k, k ≠ s → objLookup (closeTransport m (some s)) k = objLookup m k) ∧
    closeTransport (closeTransport m (some s)) (some s) = closeTransport m (some s) ∧
    objLookup (runMux (closeTransport m (some s)) steps) s = none ∧
    (∀ isInit freshSid freshT,
      (postMcp (runMux (closeTransport m (some s)) steps) (some s) isInit freshSid freshT).2
        = .badRequest (-32000) "Bad Request: No valid session ID provided" ∧
      (postMcp (runMux (closeTransport m (some s)) steps) (some s) isInit freshSid freshT).1
        = runMux (closeTransport m (some s)) steps) ∧
    handleSessionRequest (runMux (closeTransport m (some s)) steps) (some s)
      = .invalid "Invalid or missing session ID" := by
  have hclose : objLookup (closeTransport m (some s)) s = none := by
    simp only [closeTransport]
    rw [if_pos hs]
    exact objLookup_filter_ne_self m s
  have habs : objLookup (runMux (closeTransport m (some s)) steps) s = none :=
    runMux_preserves_absent _ s steps hclose hfresh
  refine ⟨hclose, ?_, ?_, habs, ?_, ?_⟩
  · intro k hk
    simp only [closeTransport]
    rw [if_pos hs]
    exact objLookup_filter_ne_other m s k hk
  · simp only [closeTransport]
    rw [if_pos hs, if_pos hs, List.filter_filter]
    congr 1
    funext kv
    cases hkv : decide (kv.1 = s) <;> simp [hkv]
  · intro isInit freshSid freshT
    have ht : sidTruthy (some s) = true := by simp [sidTruthy, hs]
    unfold postMcp
    rw [ht]
    constructor
    · rw [if_pos rfl]
      simp only [Option.getD_some]
      rw [habs]
      rw [if_neg (show ¬(true = false ∧ isInit = true) from fun hh => absurd hh.1 (by simp))]
    · rw [if_pos rfl]
      simp only [Option.getD_some]
      rw [habs]
      rw [if_neg (show ¬(true = false ∧ isInit = true) from fun hh => absurd hh.1 (by simp))]
  · simp only [handleSessionRequest]
    have ht : sidTruthy (some s) = true := by simp [sidTruthy, hs]
    rw [ht]
    simp only [Option.getD_some]
    rw [habs]
    simp

theorem transport_close_deletes_session_and_rejects_witness :
    objLookup (closeTransport [("abc", 1), ("xyz", 2)] (some "abc")) "abc" = none ∧
    objLookup (closeTransport [("abc", 1), ("xyz", 2)] (some "abc")) "xyz" = some 2 ∧
    (postMcp (runMux (closeTransport [("abc", 1), ("xyz", 2)] (some "abc"))
        [MuxStep.post none true "new1" 5]) (some "abc") true "new2" 6).2
      = .badRequest (-32000) "Bad Request: No valid session ID provided" ∧
    handleSessionRequest (runMux (closeTransport [("abc", 1), ("xyz", 2)] (some "abc"))
        [MuxStep.post none true "new1" 5]) (some "abc")
      = .invalid "Invalid or missing session ID" := by
  have h := transport_close_deletes_session_and_rejects [("abc", 1), ("xyz", 2)] "abc"
    (by decide) [MuxStep.post none true "new1" 5]
    (fun st hst => by
      simp at hst
      subst hst
      rfl)
  exact ⟨h.1, h.2.1 "xyz" (by decide), (h.2.2.2.2.1 true "new2" 6).1, h.2.2.2.2.2⟩

/-! ## The `http_request` tool handler (index.ts lines 166–231, claims C9, C10) -/

/-- Validated tool arguments as the handler receives them. -/
structure ToolArgs where
  url : String
  method : Option String := none
  headers : Option (List (String × String)) := none
  query : Option (List (String × String)) := none
  body : Option String := none
  timeoutMs : Option Nat := none

/-- A content block of a tool result. -/
inductive ContentBlock where
  | text (s : String)

/-- The `structuredContent` record the handler returns.  `errorStr = none`
renders as JSON `null` (`error ?? null`). -/
structure StructuredContent where
  ok : Bool
  status : Nat
  latencyMs : Nat
  headers : List (String × String)
  reqMethod : String
  reqHeaders : List (String × String)
  reqUrl : String
  bodyJson : JSValue
  bodyTextPreview : String
  errorStr : Option String

/-- A tool result: error flag, content blocks, optional structured payload. -/
structure ToolResult where
  isError : Bool
  content : List ContentBlock
  structuredContent : Option StructuredContent

/-- The uniform error result of the handler's `url` guard. -/
def uniformUrlError : ToolResult :=
  { isError := true,
    content := [.text "Missing required \"url\" (absolute URL)."],
    structuredContent := none }

/-- Normalized query values become `httpCall` query values. -/
def qnormToQVal : QNorm → QVal
  | .b b => .bool b
  | .n n => .num n
  | .s s => .str (strToUnits s)

/-- The `CallOpts` the handler passes to `httpCall` (lines 200–207), with
the query first normalized by `normQuery`. -/
def argsToOpts (args : ToolArgs) : CallOpts :=
  { url := args.url,
    method := args.method.getD "GET",
    headers := args.headers.getD [],
    query := (args.query.map normQuery).map
      (fun q => q.map (fun kv => (strToUnits kv.1, qnormToQVal kv.2))),
    body := args.body.map BodyVal.str,
    timeoutMs := args.timeoutMs }

/-- The `http_request` handler: url guard, normalization, the call, then
the summary line, body preview (pretty JSON only for a truthy parse,
otherwise the raw text; truncated beyond 8000 characters) and the
structured payload. -/
def httpRequestHandler (cfg : HttpConfig) (oracle : Nat → AttemptOutcome)
    (args : ToolArgs) : Except Unit ToolResult :=
  if args.url = "" then .ok uniformUrlError
  else
    match httpCall cfg oracle (argsToOpts args) with
    | .error e => .error e
    | .ok r =>
      let summary := "HTTP " ++ (args.method.getD "GET") ++ " " ++ r.url ++ " → " ++
        toString r.status ++ " in " ++ toString r.latencyMs ++ "ms"
      let bodyPreview :=
        match r.json with
        | some v => if jsTruthy v then stringify2Val 0 v else r.text
        | none => r.text
      let trimmed :=
        if bodyPreview.length > 8000 then bodyPreview.take 8000 ++ "…[truncated]"
        else bodyPreview
      .ok { isError := false,
            content := [.text ("✅ " ++ summary),
                        .text ("Response preview:\n```json\n" ++ trimmed ++ "\n```")],
            structuredContent := some
              { ok := r.ok, status := r.status, latencyMs := r.latencyMs,
                headers := r.headers,
                reqMethod := r.method, reqHeaders := r.requestHeaders, reqUrl := r.url,
                bodyJson := (match r.json with | some v => v | none => JSValue.null),
                bodyTextPreview := trimmed,
                errorStr := r.error } }

/-- C10: when the response body parses as JSON to a FALSY value (0, false,
`""`, null) the preview shown to the client and the structured
`bodyTextPreview` hold the raw body text, not pretty-printed JSON; and
`bodyJson` is JSON `null` both for a body that is the JSON value `null`
and for a body that is not valid JSON at all — the two cases are
indistinguishable in the structured payload. -/
theorem handler_falsy_json_raw_preview_and_null_bodyJson
    (cfg : HttpConfig) (oracle : Nat → AttemptOutcome) (args : ToolArgs)
    (r : CallResult) (tr : ToolResult) (sc : StructuredContent)
    (hurl : ¬ args.url = "")
    (hcall : httpCall cfg oracle (argsToOpts args) = .ok r)
    (hres : httpRequestHandler cfg oracle args = .ok tr)
    (hsc : tr.structuredContent = some sc) :
    (∀ v, r.json = some v → jsTruthy v = false →
      sc.bodyTextPreview
        = (if r.text.length > 8000 then r.text.take 8000 ++ "…[truncated]" else r.text) ∧
      tr.content = [.text ("✅ " ++ ("HTTP " ++ (args.method.getD "GET") ++ " " ++ r.url
          ++ " → " ++ toString r.status ++ " in " ++ toString r.latencyMs ++ "ms")),
        .text ("Response preview:\n```json\n"
          ++ (if r.text.length > 8000 then r.text.take 8000 ++ "…[truncated]" else r.text)
          ++ "\n```")]) ∧
    ((r.json = some JSValue.null ∨ r.json = none) → sc.bodyJson = JSValue.null) := by
  unfold httpRequestHandler at hres
  rw [if_neg hurl, hcall] at hres
  simp only [Except.ok.injEq] at hres
  subst hres
  simp only [ToolResult.structuredContent, Option.some.injEq] at hsc
  subst hsc
  constructor
  · intro v hv hfalsy
    rw [hv]
    simp only [hfalsy, if_false, StructuredContent.bodyTextPreview, ToolResult.content]
    exact ⟨rfl, rfl⟩
  · intro hnull
    cases hnull with
    | inl h => rw [h]
    | inr h => rw [h]

/-- Oracle returning a single 200 response with a given body. -/
def oracleBody (body : String) : Nat → AttemptOutcome :=
  fun _ => .success ⟨200, [], body⟩

def argsBasic : ToolArgs := { url := "https://api.example.com/x" }

theorem handler_falsy_json_raw_preview_and_null_bodyJson_witness :
    (∃ tr sc, httpRequestHandler cfgTest (oracleBody "0") argsBasic = .ok tr ∧
      tr.structuredContent = some sc ∧ sc.bodyTextPreview = "0") ∧
    (∃ tr sc, httpRequestHandler cfgTest (oracleBody "null") argsBasic = .ok tr ∧
      tr.structuredContent = some sc ∧ sc.bodyJson = JSValue.null) ∧
    (∃ tr sc, httpRequestHandler cfgTest (oracleBody "\x7bnot json") argsBasic = .ok tr ∧
      tr.structuredContent = some sc ∧ sc.bodyJson = JSValue.null) := by
  refine ⟨⟨_, _, rfl, rfl, ?_⟩, ⟨_, _, rfl, rfl, ?_⟩, ⟨_, _, rfl, rfl, ?_⟩⟩
  · have h := (handler_falsy_json_raw_preview_and_null_bodyJson cfgTest (oracleBody "0")
      argsBasic _ _ _ (by decide) rfl rfl rfl).1 (.num ⟨0, 0⟩) rfl rfl
    rw [h.1]
    rfl
  · exact (handler_falsy_json_raw_preview_and_null_bodyJson cfgTest (oracleBody "null")
      argsBasic _ _ _ (by decide) rfl rfl rfl).2 (Or.inl rfl)
  · exact (handler_falsy_json_raw_preview_and_null_bodyJson cfgTest
      (oracleBody "\x7bnot json") argsBasic _ _ _ (by decide) rfl rfl rfl).2 (Or.inr rfl)

/-! ## Schema validation of `http_request` arguments (claim C9)

The tool is registered with the zod schema `{ url: z.string().url(), ... }`
(index.ts lines 168–175).  In the MCP SDK the arguments are validated
against this schema BEFORE the handler runs; a failure becomes a
protocol-level `InvalidParams` error with a validator-generated message,
not a tool result.  `z.string().url()` accepts exactly the strings
`new URL` accepts; here it is modelled by its scheme prefix
`[A-Za-z][A-Za-z0-9+.-]* ':'` — what matters for this claim is only that a
missing field and the empty string are rejected. -/

def isSchemeStart (c : Char) : Bool := ('A' ≤ c && c ≤ 'Z') || ('a' ≤ c && c ≤ 'z')

def isSchemeChar (c : Char) : Bool :=
  isSchemeStart c || isDigitCh c || c = '+' || c = '-' || c = '.'

def hasSchemeColon : List Char → Bool
  | [] => false
  | c :: rest => if c = ':' then true else if isSchemeChar c then hasSchemeColon rest else false

/-- Modelled acceptance of `z.string().url()`. -/
def zodUrlAccepts (s : String) : Bool :=
  match s.data with
  | [] => false
  | c :: rest => isSchemeStart c && hasSchemeColon rest

/-- Raw (unvalidated) tool-call arguments: every field may be absent. -/
structure RawToolArgs where
  url : Option String := none
  method : Option String := none
  headers : Option (List (String × String)) := none
  query : Option (List (String × String)) := none
  body : Option String := none
  timeoutMs : Option Nat := none

/-- Zod validation of the `url` component of the schema: a missing field
fails with the validator's `Required` issue, a non-URL string with its
invalid-url issue. -/
def validateHttpRequestArgs (raw : RawToolArgs) : Except String ToolArgs :=
  match raw.url with
  | none => .error "Required"
  | some u =>
    if zodUrlAccepts u then
      .ok { url := u, method := raw.method, headers := raw.headers,
            query := raw.query, body := raw.body, timeoutMs := raw.timeoutMs }
    else .error "Invalid url"

/-- Outcome of a full tool invocation through the registry. -/
inductive InvokeOutcome where
  | protocolError (msg : String)
  | result (tr : ToolResult)

/-- Full invocation: schema validation, then the handler. -/
def invokeHttpRequest (cfg : HttpConfig) (oracle : Nat → AttemptOutcome)
    (raw : RawToolArgs) : InvokeOutcome :=
  match validateHttpRequestArgs raw with
  | .error m => .protocolError m
  | .ok args =>
    match httpRequestHandler cfg oracle args with
    | .ok tr => .result tr
    | .error _ => .protocolError "Internal error"

/-- C9, counterexample: an invocation with `url` missing is rejected by the
schema validator with a validator-generated protocol error — it does NOT
produce the handler's uniform error-flagged tool result. -/
theorem missing_url_is_validator_error_not_uniform_result :
    invokeHttpRequest cfgTest oracleAllFail { url := none } = .protocolError "Required" ∧
    invokeHttpRequest cfgTest oracleAllFail { url := none } ≠ .result uniformUrlError := by
  refine ⟨rfl, ?_⟩
  intro h
  rw [show invokeHttpRequest cfgTest oracleAllFail { url := none }
    = .protocolError "Required" from rfl] at h
  exact InvokeOutcome.noConfusion h

/-- C9, amended: under the registered schema a missing or empty `url` never
reaches the handler — it is rejected by validation with a
validator-generated protocol error; the uniform error result with the text
`Missing required "url" (absolute URL).` is produced by the handler's
guard, which fires only when the handler is invoked with an empty `url`
directly (i.e. with validation bypassed). -/
theorem url_guard_unreachable_through_validation
    (cfg : HttpConfig) (oracle : Nat → AttemptOutcome) :
    (∀ raw : RawToolArgs, raw.url = none ∨ raw.url = some "" →
      ∃ msg, invokeHttpRequest cfg oracle raw = .protocolError msg) ∧
    (∀ args : ToolArgs, args.url = "" →
      httpRequestHandler cfg oracle args = .ok uniformUrlError) := by
  constructor
  · intro raw hraw
    unfold invokeHttpRequest validateHttpRequestArgs
    cases hraw with
    | inl h => rw [h]; exact ⟨"Required", rfl⟩
    | inr h => rw [h]; exact ⟨"Invalid url", rfl⟩
  · intro args hurl
    unfold httpRequestHandler
    rw [if_pos hurl]

theorem url_guard_unreachable_through_validation_witness :
    (∃ msg, invokeHttpRequest cfgTest oracleAllFail { url := some "" }
      = .protocolError msg) ∧
    httpRequestHandler cfgTest oracleAllFail { url := "" } = .ok uniformUrlError := by
  constructor
  · exact (url_guard_unreachable_through_validation cfgTest oracleAllFail).1
      { url := some "" } (Or.inr rfl)
  · exact (url_guard_unreachable_through_validation cfgTest oracleAllFail).2
      { url := "" } rfl
